import Mathlib

/-!
Shallow embedding of the scenario data normalization engine
(premise/data_collection.py) and of the generic proxy/relinking engine
(premise/transformation.py).

Numeric model: the floating-point values manipulated by numpy/xarray are
represented exactly by the type `Val`: a rational number, NaN, or a signed
infinity.  The operations on `Val` follow the IEEE rules for the operations
the code performs (signed zero is not distinguished; rationals replace
binary floats, so arithmetic is exact).  Aggregations that xarray performs
with skipna=True (the default of DataArray.sum) are embedded by `sumSkip`;
plain numpy reductions, which propagate NaN, by `valSum`.
-/

namespace Premise

/-- A floating-point value: a rational number, NaN, or a signed infinity. -/
inductive Val where
  | num (q : ℚ)
  | nan
  | inf
  | ninf
deriving DecidableEq

namespace Val

/-- IEEE addition. -/
def addv : Val → Val → Val
  | nan, _ => nan
  | _, nan => nan
  | inf, ninf => nan
  | ninf, inf => nan
  | inf, _ => inf
  | _, inf => inf
  | ninf, _ => ninf
  | _, ninf => ninf
  | num a, num b => num (a + b)

/-- IEEE negation. -/
def negv : Val → Val
  | num a => num (-a)
  | nan => nan
  | inf => ninf
  | ninf => inf

/-- IEEE subtraction. -/
def subv (a b : Val) : Val := a.addv b.negv

/-- IEEE multiplication (zero times an infinity is NaN). -/
def mulv : Val → Val → Val
  | nan, _ => nan
  | _, nan => nan
  | inf, inf => inf
  | inf, ninf => ninf
  | ninf, inf => ninf
  | ninf, ninf => inf
  | inf, num b => if b = 0 then nan else if 0 < b then inf else ninf
  | num a, inf => if a = 0 then nan else if 0 < a then inf else ninf
  | ninf, num b => if b = 0 then nan else if 0 < b then ninf else inf
  | num a, ninf => if a = 0 then nan else if 0 < a then ninf else inf
  | num a, num b => num (a * b)

/-- IEEE division (x/0 is a signed infinity for x nonzero, 0/0 is NaN;
the sign of zero is not modelled, a zero divisor counts as +0). -/
def divv : Val → Val → Val
  | nan, _ => nan
  | _, nan => nan
  | inf, inf => nan
  | inf, ninf => nan
  | ninf, inf => nan
  | ninf, ninf => nan
  | inf, num b => if b < 0 then ninf else inf
  | ninf, num b => if b < 0 then inf else ninf
  | num _, inf => num 0
  | num _, ninf => num 0
  | num a, num b =>
      if b = 0 then (if a = 0 then nan else if 0 < a then inf else ninf)
      else num (a / b)

/-- IEEE strict comparison: any comparison with NaN is false. -/
def ltv : Val → Val → Bool
  | nan, _ => false
  | _, nan => false
  | ninf, ninf => false
  | ninf, _ => true
  | _, ninf => false
  | inf, inf => false
  | _, inf => true
  | inf, _ => false
  | num a, num b => decide (a < b)

/-- Rounding of a rational to the nearest integer, ties to even
(the rounding mode of numpy.round). -/
def roundHalfEven (x : ℚ) : ℤ :=
  if x - Int.floor x < 1 / 2 then Int.floor x
  else if 1 / 2 < x - Int.floor x then Int.floor x + 1
  else if Even (Int.floor x) then Int.floor x else Int.floor x + 1

/-- numpy.round(x, 3): round to three decimals, ties to even; NaN and the
infinities are returned unchanged. -/
def round3 : Val → Val
  | num q => num ((roundHalfEven (q * 1000) : ℚ) / 1000)
  | v => v

end Val

/-- xarray fillna: replace NaN by the given rational. -/
def fillna (r : ℚ) : Val → Val
  | .nan => .num r
  | v => v

/-- numpy.clip(x, lo, hi) = minimum(hi, maximum(lo, x)); NaN stays NaN,
the infinities are clamped to the corresponding bound. -/
def clipv (lo hi : ℚ) : Val → Val
  | .num q => .num (min hi (max lo q))
  | .inf => .num hi
  | .ninf => .num lo
  | .nan => .nan

/-- The assignment `values[values == np.inf] = 0` used by the marginal
market transformation: only plus infinity is zeroed. -/
def zeroInf : Val → Val
  | .inf => .num 0
  | v => v

/-- xarray DataArray.sum with the default skipna=True: NaN entries are
skipped, an all-NaN (or empty) slice sums to 0. -/
def sumSkip : List Val → Val
  | [] => .num 0
  | v :: rest => if v = .nan then sumSkip rest else v.addv (sumSkip rest)

/-- A plain numpy reduction (np.sum): NaN propagates. -/
def valSum : List Val → Val
  | [] => .num 0
  | v :: rest => v.addv (valSum rest)

/-- Find the pair of consecutive tabulated years enclosing `y`. -/
def findBracket : List ℤ → ℤ → Option (ℤ × ℤ)
  | y0 :: y1 :: rest, y =>
      if y0 ≤ y ∧ y ≤ y1 then some (y0, y1) else findBracket (y1 :: rest) y
  | _, _ => none

/-- Linear interpolation along the year axis, as performed by
DataArray.interp (scipy interp1d, kind=linear): the value at `y` is
f y0 + t * (f y1 - f y0) with t = (y - y0)/(y1 - y0) for the bracketing
tabulated years y0 ≤ y ≤ y1; a year outside the tabulated range yields
NaN (the xarray fill value for out-of-range targets). -/
def interpV (years : List ℤ) (f : ℤ → Val) (y : ℤ) : Val :=
  match findBracket years y with
  | none => .nan
  | some (y0, y1) =>
      if y0 = y1 then f y0
      else (f y0).addv
        ((Val.num (((y : ℚ) - (y0 : ℚ)) / ((y1 : ℚ) - (y0 : ℚ)))).mulv
          ((f y1).subv (f y0)))

/-- data.year.values.min() over the year axis. -/
def listMin : List ℤ → ℤ
  | [] => 0
  | x :: xs => xs.foldl min x

/-- data.year.values.max() over the year axis. -/
def listMax : List ℤ → ℤ
  | [] => 0
  | x :: xs => xs.foldl max x

/-- Python substring containment (`needle in haystack`). -/
def strContains (hay pin : String) : Bool :=
  hay.toList.tails.any (fun t => pin.toList.isPrefixOf t)

/-- The error conditions of the embedded fragment. -/
inductive DErr where
  | keyError
  | systemExit
  | noResults
  | multipleResults
  | nameError
deriving DecidableEq

/-!
Derivations of IAMDataCollection (data_collection.py).  A raw scenario
cube is a function region → variable → year → Val together with the list
of variable labels carried by its variable axis (cubeVars) and the list of
tabulated years (years).  Region and variable labels are strings.
-/

/-- The guard at the top of every derivation method: the requested year
must lie within [min(year), max(year)] of the cube, else KeyError. -/
def checkYearBounds (years : List ℤ) (year : ℤ) : Except DErr Unit :=
  if year < listMin years ∨ listMax years < year then .error .keyError else .ok ()

/-- The try/except KeyError fallback shared by the market-share,
efficiency and production-volume derivations: selecting absent variable
labels raises KeyError; the handler keeps the available labels when at
least one of the requested set remains, else raises SystemExit. -/
def selectAvailable (cubeVars wanted : List String) : Except DErr (List String) :=
  if wanted.all (fun v => decide (v ∈ cubeVars)) then .ok wanted
  else if 0 < (wanted.filter (fun v => decide (v ∈ cubeVars))).length then
    .ok (wanted.filter (fun v => decide (v ∈ cubeVars)))
  else .error .systemExit

/-- The attributional electricity market share: the per-year value divided
by the per-region skipna sum over the selected technologies
(`data_to_return /= data.loc[...].groupby("region").sum(dim="variables")`).
The returned cube keeps the full year axis. -/
def elecShareFun (avail : List String) (data : String → String → ℤ → Val) :
    String → String → ℤ → Val :=
  fun r t y => (data r t y).divv (sumSkip (avail.map (fun t2 => data r t2 y)))

/-- __get_iam_electricity_markets, attributional branch (the consequential
branch routes the selected sub-cube through transformToMarginalMarkets,
embedded further below). -/
def getIamElectricityMarkets (cubeVars techs : List String) (years : List ℤ)
    (data : String → String → ℤ → Val) (year : ℤ) :
    Except DErr (List String × (String → String → ℤ → Val)) :=
  match checkYearBounds years year with
  | .error e => .error e
  | .ok _ =>
      match selectAvailable cubeVars techs with
      | .error e => .error e
      | .ok avail => .ok (avail, elecShareFun avail data)

/-- The in-place World fix of __get_iam_fuel_markets: the World row of the
selected technologies is overwritten with the skipna sum over every other
region. -/
def worldFixData (regions techs : List String) (data : String → String → ℤ → Val) :
    String → String → ℤ → Val :=
  fun r t y =>
    if r = "World" ∧ t ∈ techs then
      sumSkip ((regions.filter (fun r2 => decide (r2 ≠ "World"))).map
        (fun r2 => data r2 t y))
    else data r t y

/-- The attributional fuel market share: the value interpolated at the
target year divided by the per-region skipna sum of the interpolated
values over the selected technologies. -/
def fuelShareFun (avail : List String) (years : List ℤ) (year : ℤ)
    (data : String → String → ℤ → Val) : String → String → Val :=
  fun r t => (interpV years (data r t) year).divv
    (sumSkip (avail.map (fun t2 => interpV years (data r t2) year)))

/-- __get_iam_fuel_markets, attributional branch.  The World-fix
assignment raises KeyError when a requested technology is absent from the
variable axis or the World region is absent from the region axis; that
KeyError is caught by the same missing-variable handler as elsewhere
(with no partial mutation, the assignment either succeeds or raises
before writing). -/
def getIamFuelMarkets (regions cubeVars techs : List String) (years : List ℤ)
    (data : String → String → ℤ → Val) (year : ℤ) :
    Except DErr (List String × (String → String → Val)) :=
  match checkYearBounds years year with
  | .error e => .error e
  | .ok _ =>
      if techs.all (fun v => decide (v ∈ cubeVars)) ∧ "World" ∈ regions then
        .ok (techs, fuelShareFun techs years year (worldFixData regions techs data))
      else
        match selectAvailable cubeVars techs with
        | .error e => .error e
        | .ok avail => .ok (avail, fuelShareFun avail years year data)

/-- __get_iam_production_volumes: selection of the mapped product labels
with the shared year guard and missing-variable fallback; the selected
sub-cube is returned with its full year axis. -/
def getIamProductionVolumes (cubeVars prods : List String) (years : List ℤ)
    (data : String → String → ℤ → Val) (year : ℤ) :
    Except DErr (List String × (String → String → ℤ → Val)) :=
  match checkYearBounds years year with
  | .error e => .error e
  | .ok _ =>
      match selectAvailable cubeVars prods with
      | .error e => .error e
      | .ok avail => .ok (avail, fun r p y => data r p y)

/-- The post-2020 / pre-2020 correction block shared verbatim by every
efficiency and emission-ratio derivation: after 2020 a ratio below 1 is
raised to 1, before 2020 a ratio above 1 is lowered to 1 (the numpy masks
`values[values < 1] = 1` and `values[values > 1] = 1`, which leave NaN
untouched because NaN compares false). -/
def clampYears (year : ℤ) (v : Val) : Val :=
  if 2020 < year then (if v.ltv (.num 1) then .num 1 else v)
  else if year < 2020 then (if (Val.num 1).ltv v then .num 1 else v)
  else v

/-- __get_iam_electricity_efficiencies, per region and technology:
`series` is the technology column; ratio = interp(target)/sel(2020), then
the year clamps, then fillna(1).  (The 2020 selection assumes 2020 is a
tabulated year; .sel would raise otherwise.) -/
def getIamElectricityEfficiencies (years : List ℤ) (year : ℤ) (series : ℤ → Val) : Val :=
  fillna 1 (clampYears year ((interpV years series year).divv (series 2020)))

/-- __get_iam_fuel_efficiencies, per region and technology: as the
electricity variant plus the final np.clip(values, 0.5, 2). -/
def getIamFuelEfficiencies (years : List ℤ) (year : ℤ) (series : ℤ → Val) : Val :=
  clipv (1 / 2) 2
    (fillna 1 (clampYears year ((interpV years series year).divv (series 2020))))

/-- The cement specific-energy series of __get_iam_cement_efficiencies:
with an efficiency alias present in the cube, 1/data[alias]; else, with
every energy-use alias and the production alias present,
1/(sum(energy)/production); else the constant 1 series
(xr.ones_like fallback). -/
def cementSeries (effAlias : Option String) (prodAlias : String)
    (energyAliases cubeVars : List String) (data : String → ℤ → Val) : ℤ → Val :=
  match effAlias with
  | some e =>
      if e ∈ cubeVars then fun y => (Val.num 1).divv (data e y)
      else fun _ => .num 1
  | none =>
      if energyAliases.all (fun v => decide (v ∈ cubeVars)) ∧ prodAlias ∈ cubeVars then
        fun y => (Val.num 1).divv
          ((sumSkip (energyAliases.map (fun v => data v y))).divv (data prodAlias y))
      else fun _ => .num 1

/-- __get_iam_cement_efficiencies, per region: ratio of the cement series
at the target year to its 2020 value, year clamps, fillna(1), and the
final np.clip(., 0.5, 2). -/
def getIamCementEfficiencies (effAlias : Option String) (prodAlias : String)
    (energyAliases cubeVars : List String) (data : String → ℤ → Val)
    (years : List ℤ) (year : ℤ) : Val :=
  clipv (1 / 2) 2
    (fillna 1 (clampYears year
      ((interpV years (cementSeries effAlias prodAlias energyAliases cubeVars data) year).divv
        (cementSeries effAlias prodAlias energyAliases cubeVars data 2020))))

/-- One steel pathway series of __get_iam_steel_efficiencies (primary or
secondary): with an efficiency alias present in the cube, 1/data[alias];
else, when the production alias is present, 1/(sum(energy)/production)
(the energy aliases are not checked for presence, faithful to the
source); else the constant 1 series. -/
def steelSeries (effAlias : Option String) (prodAlias : String)
    (energyAliases cubeVars : List String) (data : String → ℤ → Val) : ℤ → Val :=
  match effAlias with
  | some e =>
      if e ∈ cubeVars then fun y => (Val.num 1).divv (data e y)
      else fun _ => .num 1
  | none =>
      if prodAlias ∈ cubeVars then
        fun y => (Val.num 1).divv
          ((sumSkip (energyAliases.map (fun v => data v y))).divv (data prodAlias y))
      else fun _ => .num 1

/-- __get_iam_steel_efficiencies, one pathway entry (the primary and
secondary pathways are computed independently, concatenated, and then run
through the identical clamp block): ratio to 2020, year clamps,
fillna(1), np.clip(., 0.5, 2). -/
def getIamSteelEfficiencies (effAlias : Option String) (prodAlias : String)
    (energyAliases cubeVars : List String) (data : String → ℤ → Val)
    (years : List ℤ) (year : ℤ) : Val :=
  clipv (1 / 2) 2
    (fillna 1 (clampYears year
      ((interpV years (steelSeries effAlias prodAlias energyAliases cubeVars data) year).divv
        (steelSeries effAlias prodAlias energyAliases cubeVars data 2020))))

/-- The common body of __get_gains_electricity_emissions,
__get_gains_cement_emissions and __get_gains_steel_emissions, per region,
pollutant and sector: the improvement factor 1/(interp(target)/sel(2020))
followed by the year clamps and fillna(1).  The three methods differ only
in the sector labels selected before this computation. -/
def getGainsEmissionRatio (years : List ℤ) (year : ℤ) (series : ℤ → Val) : Val :=
  fillna 1 (clampYears year
    ((Val.num 1).divv ((interpV years series year).divv (series 2020))))

/-- The skipna sum of the captured-CO2 variable over the non-World
regions (numerator of the recomputed World capture rate). -/
def worldCapSum (regions : List String) (capVar : String)
    (data : String → String → ℤ → Val) (y : ℤ) : Val :=
  sumSkip ((regions.filter (fun r2 => decide (r2 ≠ "World"))).map
    (fun r2 => data r2 capVar y))

/-- The skipna sum of the vented and captured CO2 variables over the
non-World regions (denominator of the recomputed World capture rate,
`.sum(dim=["variables", "region"])`). -/
def worldTotSum (regions : List String) (capVar ventVar : String)
    (data : String → String → ℤ → Val) (y : ℤ) : Val :=
  sumSkip (((regions.filter (fun r2 => decide (r2 ≠ "World"))).map
      (fun r2 => data r2 ventVar y)) ++
    ((regions.filter (fun r2 => decide (r2 ≠ "World"))).map
      (fun r2 => data r2 capVar y)))

/-- One sector of __get_carbon_capture_rate before clipping and
interpolation: rate = captured / (vented + captured) per region and year
with fillna(0); the World row is then overwritten by the ratio of the
non-World sums (note: this overwrite happens after the fillna, so a NaN
arising in it is not replaced). -/
def ccRateRaw (regions : List String) (capVar ventVar : String)
    (data : String → String → ℤ → Val) (r : String) (y : ℤ) : Val :=
  if r = "World" then
    (worldCapSum regions capVar data y).divv (worldTotSum regions capVar ventVar data y)
  else
    fillna 0 ((data r capVar y).divv (sumSkip [data r ventVar y, data r capVar y]))

/-- __get_carbon_capture_rate, one sector entry: the per-year rates are
clipped to [0, 1] with np.clip and the result is interpolated at the
target year.  (The year-bound guard at the top of the method is
checkYearBounds, shared with the other derivations.) -/
def getCarbonCaptureRate (regions : List String) (capVar ventVar : String)
    (data : String → String → ℤ → Val) (years : List ℤ) (year : ℤ) (r : String) : Val :=
  interpV years (fun y => clipv 0 1 (ccRateRaw regions capVar ventVar data r y)) year

/-- Decidable test that a value is a rational in [0, 1]. -/
def inUnit : Val → Bool
  | .num q => decide (0 ≤ q ∧ q ≤ 1)
  | _ => false

/-- Decidable test that a value is at least 1 (plus infinity counts, it
is not below 1). -/
def valGE1 : Val → Bool
  | .num q => decide (1 ≤ q)
  | .inf => true
  | _ => false

/-- Decidable test that a value is at most 1 (minus infinity counts, it
is not above 1). -/
def valLE1 : Val → Bool
  | .num q => decide (q ≤ 1)
  | .ninf => true
  | _ => false

/-!
__transform_to_marginal_markets (consequential mode), embedded per
region: the loop body for one region of the cube.  `data` is the
selected sub-cube restricted to that region (technology → year → Val),
`lifetime` the lifetimes.csv lookup, `year` the target year (selected
exactly, not interpolated, by data.sel) and `horizon` the time horizon.
-/

/-- The non-competing technologies zeroed before ranking
(`tech_to_ignore = ["CHP", "biomethane"]`, substring match on the
technology label). -/
def techToIgnore (v : String) : Bool :=
  strContains v ("CHP") || strContains v ("biomethane")

/-- The in-place zeroing of the non-competing technologies
(`data.loc[dict(variables=[...], region=region)] = 0`). -/
def mmZeroedData (data : String → ℤ → Val) : String → ℤ → Val :=
  fun t y => if techToIgnore t then .num 0 else data t y

/-- current_shares: the base-year production share of each technology
(exact selection at the target year, per-region skipna sum). -/
def mmCurrentShare (techs : List String) (data : String → ℤ → Val) (year : ℤ)
    (t : String) : Val :=
  (data t year).divv (sumSkip (techs.map (fun t2 => data t2 year)))

/-- avg_lifetime: np.sum(current_shares.values * lifetime), a plain
NaN-propagating reduction. -/
def mmAvgLifetime (techs : List String) (lifetime : String → ℚ)
    (data : String → ℤ → Val) (year : ℤ) : Val :=
  valSum (techs.map (fun t =>
    (mmCurrentShare techs data year t).mulv (Val.num (lifetime t))))

/-- avg_cap_repl_rate = -1 / avg_lifetime. -/
def mmAvgCapReplRate (techs : List String) (lifetime : String → ℚ)
    (data : String → ℤ → Val) (year : ℤ) : Val :=
  (Val.num (-1)).divv (mmAvgLifetime techs lifetime data year)

/-- volume_change: the growth of the interpolated total volume over the
horizon, computed on the unmutated data (before the CHP/biomethane
zeroing). -/
def mmVolumeChange (techs : List String) (years : List ℤ)
    (data : String → ℤ → Val) (year horizon : ℤ) : Val :=
  ((interpV years (fun y => sumSkip (techs.map (fun t => data t y))) (year + horizon)).divv
    (interpV years (fun y => sumSkip (techs.map (fun t => data t y))) year)).subv
    (Val.num 1)

/-- The per-technology net growth term the branches filter on: the growth
ratio over the horizon (on the zeroed data) minus 1, rounded to three
decimals, with +inf then NaN forced to 0, plus the technology capital
replacement rate -1/lifetime. -/
def mmWithRate (lifetime : String → ℚ) (years : List ℤ)
    (data : String → ℤ → Val) (year horizon : ℤ) (t : String) : Val :=
  (fillna 0 (zeroInf (Val.round3
    (((interpV years (mmZeroedData data t) (year + horizon)).divv
        (interpV years (mmZeroedData data t) year)).subv (Val.num 1))))).addv
    ((Val.num (-1)).divv (Val.num (lifetime t)))

/-- The shared renormalization tail of both branches: divide by the
technology sum, weight by the base-year volumes, divide by the technology
sum again. -/
def mmRenormWeight (techs : List String) (g w : String → Val) : String → Val :=
  fun t =>
    (((g t).divv (sumSkip (techs.map g))).mulv (w t)).divv
      (sumSkip (techs.map (fun t2 => ((g t2).divv (sumSkip (techs.map g))).mulv (w t2))))

/-- The increase branch: technologies with negative net growth are
zeroed, then the volume-weighted double renormalization. -/
def mmIncrease (techs : List String) (g w : String → Val) : String → Val :=
  mmRenormWeight techs (fun t => if (g t).ltv (.num 0) then .num 0 else g t) w

/-- The decrease branch: technologies with positive net growth are
zeroed, the sign is reversed, then the volume-weighted double
renormalization. -/
def mmDecrease (techs : List String) (g w : String → Val) : String → Val :=
  mmRenormWeight techs
    (fun t => (if (Val.num 0).ltv (g t) then .num 0 else g t).mulv (Val.num (-1))) w

/-- __transform_to_marginal_markets, one region: the decrease branch is
taken when volume_change < avg_cap_repl_rate, else the increase branch;
both weight by the base-year volumes of the zeroed data. -/
def transformToMarginalMarkets (techs : List String) (lifetime : String → ℚ)
    (years : List ℤ) (data : String → ℤ → Val) (year horizon : ℤ) : String → Val :=
  if (mmVolumeChange techs years data year horizon).ltv
      (mmAvgCapReplRate techs lifetime data year) then
    mmDecrease techs (mmWithRate lifetime years data year horizon)
      (fun t => mmZeroedData data t year)
  else
    mmIncrease techs (mmWithRate lifetime years data year horizon)
      (fun t => mmZeroedData data t year)

/-!
The activity graph of transformation.py: activities (wurst datasets) with
exchanges.  A technosphere exchange points at a supplying activity by the
(name, product, location) triple; biosphere exchanges carry no meaningful
product/location (their absent fields are modelled by the empty string,
which no dangling technosphere triple uses). -/

/-- An exchange of a dataset.  `pvol` is the optional production-volume
field of production exchanges. -/
structure Exch where
  typ : String
  name : String
  product : String
  location : String
  unit : String
  amount : ℚ
  pvol : Option Val := none
deriving DecidableEq

/-- A dataset of the wurst database. -/
structure Act where
  name : String
  refProd : String
  location : String
  unit : String
  code : String
  exchanges : List Exch
deriving DecidableEq

/-- The (name, product, location) identity a technosphere exchange points
at. -/
def excIdent (e : Exch) : String × String × String := (e.name, e.product, e.location)

/-- The (name, product, location, unit) tuple used to group dangling
exchanges. -/
def excKey (e : Exch) : String × String × String × String :=
  (e.name, e.product, e.location, e.unit)

/-- get_shares_from_production_volume: the production volume of one
production exchange, with the missing field defaulting to 1e-9 and the
Python max(float(pv), 1e-9) floor (NaN passes through the comparison
unchanged, as in Python max). -/
def flooredPV (e : Exch) : Val :=
  let v := e.pvol.getD (Val.num (1 / 1000000000))
  if v.ltv (.num (1 / 1000000000)) then .num (1 / 1000000000) else v

/-- Insertion into a Python dict modelled as an association list: an
existing key is overwritten in place, a new key is appended. -/
def dictPut {α β : Type} [DecidableEq α] (d : List (α × β)) (k : α) (v : β) :
    List (α × β) :=
  if d.any (fun p => decide (p.1 = k)) then
    d.map (fun p => if p.1 = k then (k, v) else p)
  else d ++ [(k, v)]

/-- The (name, location, reference product, unit) key of the shares
dict. -/
def actKey (a : Act) : String × String × String × String :=
  (a.name, a.location, a.refProd, a.unit)

/-- The (activity, production exchange) pairs visited by
get_shares_from_production_volume, in loop order. -/
def pvPairs (acts : List Act) : List ((String × String × String × String) × Val) :=
  (acts.map (fun a =>
    (a.exchanges.filter (fun e => decide (e.typ = "production"))).map
      (fun e => (actKey a, flooredPV e)))).flatten

/-- get_shares_from_production_volume: build the dict (overwriting
duplicate keys), accumulate the total over every visited production
exchange, then divide each dict value by the total. -/
def getSharesFromProductionVolume (acts : List Act) :
    List ((String × String × String × String) × Val) :=
  let pairs := pvPairs acts
  let dict := pairs.foldl (fun d p => dictPut d p.1 p.2) []
  let total := valSum (pairs.map (fun p => p.2))
  dict.map (fun p => (p.1, p.2.divv total))

/-!
relink_datasets (transformation.py).  The loop over the unique dangling
tuples of an activity threads mutable state: the per-origin-location
cache self.cache, the alternative_names list (which the handler of each
cache miss grows by prepending the tuple name, and which persists across
tuples and across activities), and the Python local variables
new_name/new_prod/new_loc/new_unit, which keep their binding from the
most recent successful resolution (lastTarget); a failed resolution with
no prior binding raises NameError inside the bare try/except, which
prints the diagnostic.  Python set iteration order is unspecified; the
embedding fixes first-occurrence order for the unique tuples.
-/

/-- The mutable state threaded through relink_datasets. -/
structure RelinkState where
  cache : List ((String × (String × String × String × String)) × (String × String × String × String))
  altNames : List String
  lastTarget : Option (String × String × String × String)
  diagnostics : List (String × String)
deriving DecidableEq

/-- Lookup in the two-level dict self.cache, keyed by (origin location,
dangling tuple). -/
def cacheGet (c : List ((String × (String × String × String × String)) × (String × String × String × String)))
    (k : String × (String × String × String × String)) :
    Option (String × String × String × String) :=
  (c.find? (fun p => decide (p.1 = k))).map (fun p => p.2)

/-- Store a resolution in the cache (only reached on a cache miss, so a
plain append). -/
def cachePut (c : List ((String × (String × String × String × String)) × (String × String × String × String)))
    (k : String × (String × String × String × String))
    (v : String × String × String × String) :
    List ((String × (String × String × String × String)) × (String × String × String × String)) :=
  c ++ [(k, v)]

/-- First-occurrence deduplication, with an accumulator of the elements
already seen (list(set(...)) in the source, whose iteration order is
unspecified; the embedding fixes first-occurrence order). -/
def dedupFirstAux {α : Type} [DecidableEq α] (seen : List α) : List α → List α
  | [] => []
  | x :: xs =>
      if x ∈ seen then dedupFirstAux seen xs
      else x :: dedupFirstAux (x :: seen) xs

/-- First-occurrence deduplication of the dangling tuples. -/
def dedupFirst {α : Type} [DecidableEq α] (l : List α) : List α := dedupFirstAux [] l

/-- The candidate search of relink_datasets: the first name of
`names` such that (name, product, loc) is a known identity. -/
def findCandidate (listDs : List (String × String × String)) (names : List String)
    (productLabel loc : String) : Option String :=
  names.find? (fun n => decide ((n, productLabel, loc) ∈ listDs))

/-- The resolution of one dangling tuple: the cache is consulted first;
on a miss, the candidate names (the tuple name prepended to the
accumulated alternative names) are crossed with the single alternative
location (the origin location when it is a scenario region, else its
mapped scenario region). -/
def resolveTuple (listDs : List (String × String × String)) (regions : List String)
    (ecoToIam : String → String) (actLoc : String) (st : RelinkState)
    (k : String × String × String × String) :
    Option (String × String × String × String) :=
  match cacheGet st.cache (actLoc, k) with
  | some tgt => some tgt
  | none =>
      (findCandidate listDs (k.1 :: st.altNames) k.2.1
          (if actLoc ∈ regions then actLoc else ecoToIam actLoc)).map
        (fun n => (n, k.2.1, if actLoc ∈ regions then actLoc else ecoToIam actLoc, k.2.2.2))

/-- One iteration of the loop over the unique dangling tuples: resolve
the tuple (updating alternative_names and the cache exactly when the
cache missed), sum the amounts of the originally dangling exchanges
sharing the tuple, remove every exchange matching the tuple, and append
the consolidated replacement pointing at the current binding - the stale
binding of an earlier success when this tuple did not resolve.  With no
binding at all the replacement construction raises NameError, caught by
the bare except, which prints the diagnostic naming the exchange and the
origin. -/
def relinkStep (listDs : List (String × String × String)) (regions : List String)
    (ecoToIam : String → String) (actLoc : String) (origDangling : List Exch)
    (acc : List Exch × RelinkState) (k : String × String × String × String) :
    List Exch × RelinkState :=
  let st := acc.2
  let hit := (cacheGet st.cache (actLoc, k)).isSome
  let st2 :=
    match resolveTuple listDs regions ecoToIam actLoc st k with
    | some tgt =>
        if hit then { st with lastTarget := some tgt }
        else { st with altNames := k.1 :: st.altNames,
                       cache := cachePut st.cache (actLoc, k) tgt,
                       lastTarget := some tgt }
    | none => { st with altNames := k.1 :: st.altNames }
  let amount := ((origDangling.filter (fun e => decide (excKey e = k))).map
    (fun e => e.amount)).sum
  let kept := acc.1.filter (fun e => decide (excKey e ≠ k))
  match st2.lastTarget with
  | some tgt =>
      (kept ++ [{ typ := "technosphere", name := tgt.1, product := tgt.2.1,
                  location := tgt.2.2.1, unit := tgt.2.2.2, amount := amount }], st2)
  | none =>
      (kept, { st2 with diagnostics := st2.diagnostics ++ [(k.1, actLoc)] })

/-- The dangling technosphere exchanges of an activity: those whose
(name, product, location) triple is not a known identity. -/
def danglingOf (listDs : List (String × String × String)) (act : Act) : List Exch :=
  act.exchanges.filter (fun e =>
    decide (e.typ = "technosphere" ∧ excIdent e ∉ listDs))

/-- The body of relink_datasets for one activity: fold relinkStep over
the unique dangling tuples. -/
def relinkActivity (listDs : List (String × String × String)) (regions : List String)
    (ecoToIam : String → String) (st : RelinkState) (act : Act) : Act × RelinkState :=
  let dangling := danglingOf listDs act
  let folded := (dedupFirst (dangling.map excKey)).foldl
    (relinkStep listDs regions ecoToIam act.location dangling) (act.exchanges, st)
  ({ act with exchanges := folded.1 }, folded.2)

/-- relink_datasets: every activity whose name contains none of the
excluded substrings is processed in database order; the state persists
across activities. -/
def relinkDatasets (listDs : List (String × String × String)) (regions : List String)
    (ecoToIam : String → String) (excludes : List String) (st0 : RelinkState)
    (db : List Act) : List Act × RelinkState :=
  db.foldl (fun acc act =>
    if excludes.any (fun s => strContains act.name s) then (acc.1 ++ [act], acc.2)
    else
      let r := relinkActivity listDs regions ecoToIam acc.2 act
      (acc.1 ++ [r.1], r.2)) ([], st0)

/-!
fetch_proxies (transformation.py).  External wurst helpers are embedded
from their documented behaviour: ws.get_one returns the single matching
dataset and raises NoResults / MultipleResults otherwise (only NoResults
is caught, triggering the GLO fallback); wt.copy_to_new_location copies
the dataset with the new location.  The uuid4 code generator is an
oracle parameter newCode.  The "input" link tags carried by wurst
datasets are not modelled (their removal has no bearing on the claims).
-/

/-- The dict comprehension d_map: for each dataset matching the template
name whose reference product contains ref_prod, map its scenario region
to its location; a later dataset overwrites an earlier one with the same
region. -/
def dMapGet (db : List Act) (ecoToIam : String → String) (nm rp region : String) :
    Option String :=
  ((db.filter (fun d => decide (d.name = nm ∧ strContains d.refProd rp = true))).reverse.find?
    (fun d => decide (ecoToIam d.location = region))).map (fun d => d.location)

/-- d_iam_to_eco: the mapped location, defaulting to RoW. -/
def dIamToEco (db : List Act) (ecoToIam : String → String) (nm rp region : String) :
    String :=
  (dMapGet db ecoToIam nm rp region).getD ("RoW")

/-- ws.get_one over name equality, reference-product containment and
location equality. -/
def getOneAct (db : List Act) (nm rp loc : String) : Except DErr Act :=
  match db.filter (fun a =>
      decide (a.name = nm ∧ strContains a.refProd rp = true ∧ a.location = loc)) with
  | [a] => .ok a
  | [] => .error .noResults
  | _ => .error .multipleResults

/-- The template lookup for one region: the mapped location first, the
GLO fallback on NoResults only. -/
def fetchTemplate (db : List Act) (ecoToIam : String → String) (nm rp region : String) :
    Except DErr Act :=
  match getOneAct db nm rp (dIamToEco db ecoToIam nm rp region) with
  | .ok a => .ok a
  | .error .noResults => getOneAct db nm rp ("GLO")
  | .error e => .error e

/-- The production volume stamped on a clone: the production-volume cube
selected at the region and the production variables, interpolated at the
target year, then summed (skipna) over the variables. -/
def prodVolAt (pvCube : String → String → ℤ → Val) (prodVars : List String)
    (years : List ℤ) (year : ℤ) (region : String) : Val :=
  sumSkip (prodVars.map (fun v => interpV years (pvCube region v) year))

/-- The clone of a template for one region: the region as location, the
fresh code, and every production exchange stamped with the region and the
production volume. -/
def cloneToRegion (a : Act) (region code : String) (pv : Val) : Act :=
  { a with
    location := region
    code := code
    exchanges := a.exchanges.map (fun e =>
      if e.typ = "production" then { e with location := region, pvol := some pv }
      else e) }

/-- The region loop of fetch_proxies: one clone per scenario region, in
region order; a failed template lookup aborts the call. -/
def fetchLoop (db : List Act) (ecoToIam : String → String) (nm rp : String)
    (newCode : String → String) (pvCube : String → String → ℤ → Val)
    (prodVars : List String) (years : List ℤ) (year : ℤ) :
    List String → Except DErr (List (String × Act))
  | [] => .ok []
  | r :: rs =>
      match fetchTemplate db ecoToIam nm rp r with
      | .error e => .error e
      | .ok tmpl =>
          match fetchLoop db ecoToIam nm rp newCode pvCube prodVars years year rs with
          | .error e => .error e
          | .ok rest =>
              .ok ((r, cloneToRegion tmpl r (newCode r)
                (prodVolAt pvCube prodVars years year r)) :: rest)

/-- fetch_proxies: build the clones, then delete from the database every
dataset sharing the (name, reference product) pair of the clone built in
the last loop iteration (ds_name/ds_ref_prod are bound in the loop; an
empty region list leaves them unbound, a NameError).  The clones are
returned, not inserted into the database. -/
def fetchProxies (db : List Act) (regions : List String) (ecoToIam : String → String)
    (nm rp : String) (newCode : String → String) (pvCube : String → String → ℤ → Val)
    (prodVars : List String) (years : List ℤ) (year : ℤ) :
    Except DErr (List (String × Act) × List Act) :=
  match fetchLoop db ecoToIam nm rp newCode pvCube prodVars years year regions with
  | .error e => .error e
  | .ok lst =>
      match lst.getLast? with
      | none => .error .nameError
      | some lastPair =>
          .ok (lst, db.filter (fun a =>
            decide (¬(a.name = lastPair.2.name ∧ a.refProd = lastPair.2.refProd))))

/-!
Helper lemmas.
-/

theorem sumSkip_map_num {α : Type} (l : List α) (f : α → ℚ) :
    sumSkip (l.map (fun a => Val.num (f a))) = .num ((l.map f).sum) := by
  induction l with
  | nil => rfl
  | cons x xs ih => simp [sumSkip, Val.addv, ih]

theorem list_sum_map_div {α : Type} (l : List α) (f : α → ℚ) (S : ℚ) :
    (l.map (fun a => f a / S)).sum = (l.map f).sum / S := by
  induction l with
  | nil => simp
  | cons x xs ih => simp [ih, add_div]

theorem clampYears_nan (year : ℤ) : clampYears year .nan = .nan := by
  simp [clampYears, Val.ltv]

theorem post_ne_nan (year : ℤ) (v : Val) : fillna 1 (clampYears year v) ≠ .nan := by
  rcases v with q | _ | _ | _ <;> unfold clampYears <;> split_ifs <;>
    simp_all [Val.ltv, fillna]

theorem valGE1_post (year : ℤ) (v : Val) (h : 2020 < year) :
    valGE1 (fillna 1 (clampYears year v)) = true := by
  rcases v with q | _ | _ | _ <;>
    simp only [clampYears, if_pos h]
  · split_ifs with h1
    · simp [fillna, valGE1]
    · simp only [Val.ltv, decide_eq_true_eq, not_lt] at h1
      simp [fillna, valGE1, h1]
  · simp [Val.ltv, fillna, valGE1]
  · simp [Val.ltv, fillna, valGE1]
  · simp [Val.ltv, fillna, valGE1]

theorem valLE1_post (year : ℤ) (v : Val) (h : year < 2020) :
    valLE1 (fillna 1 (clampYears year v)) = true := by
  have h2 : ¬ (2020 : ℤ) < year := by omega
  rcases v with q | _ | _ | _ <;>
    simp only [clampYears, if_neg h2, if_pos h]
  · split_ifs with h1
    · simp [fillna, valLE1]
    · simp only [Val.ltv, decide_eq_true_eq, not_lt] at h1
      simp [fillna, valLE1, h1]
  · simp [Val.ltv, fillna, valLE1]
  · simp [Val.ltv, fillna, valLE1]
  · simp [Val.ltv, fillna, valLE1]

theorem clip_half_two_of_ne_nan (v : Val) (h : v ≠ .nan) :
    ∃ q, clipv (1 / 2) 2 v = .num q ∧ 1 / 2 ≤ q ∧ q ≤ 2 := by
  rcases v with q | _ | _ | _
  · refine ⟨min 2 (max (1 / 2) q), rfl, ?_, ?_⟩
    · have h1 : (1 : ℚ) / 2 ≤ max (1 / 2) q := le_max_left _ _
      have h2 : (1 : ℚ) / 2 ≤ 2 := by norm_num
      exact le_min h2 h1
    · exact min_le_left _ _
  · exact absurd rfl h
  · exact ⟨2, rfl, by norm_num, le_refl _⟩
  · exact ⟨1 / 2, rfl, le_refl _, by norm_num⟩

theorem clip_of_valGE1 (v : Val) (h : valGE1 v = true) :
    ∃ q, clipv (1 / 2) 2 v = .num q ∧ 1 ≤ q ∧ q ≤ 2 := by
  rcases v with q | _ | _ | _
  · simp only [valGE1, decide_eq_true_eq] at h
    refine ⟨min 2 (max (1 / 2) q), rfl, ?_, min_le_left _ _⟩
    have h1 : (1 : ℚ) ≤ max (1 / 2) q := le_trans h (le_max_right _ _)
    exact le_min (by norm_num) h1
  · simp [valGE1] at h
  · exact ⟨2, rfl, by norm_num, le_refl _⟩
  · simp [valGE1] at h

theorem clip_of_valLE1 (v : Val) (h : valLE1 v = true) :
    ∃ q, clipv (1 / 2) 2 v = .num q ∧ 1 / 2 ≤ q ∧ q ≤ 1 := by
  rcases v with q | _ | _ | _
  · simp only [valLE1, decide_eq_true_eq] at h
    refine ⟨min 2 (max (1 / 2) q), rfl, ?_, ?_⟩
    · exact le_min (by norm_num) (le_max_left _ _)
    · have h1 : max (1 / 2) q ≤ 1 := max_le (by norm_num) h
      exact le_trans (min_le_right _ _) h1
  · simp [valLE1] at h
  · simp [valLE1] at h
  · exact ⟨1 / 2, rfl, le_refl _, by norm_num⟩

theorem post_of_nan (year : ℤ) : fillna 1 (clampYears year .nan) = .num 1 := by
  rw [clampYears_nan]
  rfl

/-- Claim C2: for every efficiency-ratio and emission-ratio derivation
(electricity, fuel, cement, steel efficiencies; the GAINS pollutant
emission ratios of electricity, cement and steel, which share one body),
a requested year after 2020 never yields a ratio below 1, a requested
year before 2020 never yields a ratio above 1, NaN ratios are replaced by
1, and the fuel, cement and steel variants lie within [0.5, 2] after the
final clip. -/
theorem c2_efficiency_and_emission_ratio_clamps
    (years : List ℤ) (year : ℤ) (eS gS fS : ℤ → Val)
    (effC : Option String) (prodC : String) (energyC cubeVarsC : List String)
    (dataC : String → ℤ → Val)
    (effS : Option String) (prodS : String) (energyS cubeVarsS : List String)
    (dataS : String → ℤ → Val) :
    (2020 < year →
      valGE1 (getIamElectricityEfficiencies years year eS) = true ∧
      valGE1 (getGainsEmissionRatio years year gS) = true ∧
      (∃ q, getIamFuelEfficiencies years year fS = .num q ∧ 1 ≤ q ∧ q ≤ 2) ∧
      (∃ q, getIamCementEfficiencies effC prodC energyC cubeVarsC dataC years year
          = .num q ∧ 1 ≤ q ∧ q ≤ 2) ∧
      (∃ q, getIamSteelEfficiencies effS prodS energyS cubeVarsS dataS years year
          = .num q ∧ 1 ≤ q ∧ q ≤ 2)) ∧
    (year < 2020 →
      valLE1 (getIamElectricityEfficiencies years year eS) = true ∧
      valLE1 (getGainsEmissionRatio years year gS) = true ∧
      (∃ q, getIamFuelEfficiencies years year fS = .num q ∧ 1 / 2 ≤ q ∧ q ≤ 1) ∧
      (∃ q, getIamCementEfficiencies effC prodC energyC cubeVarsC dataC years year
          = .num q ∧ 1 / 2 ≤ q ∧ q ≤ 1) ∧
      (∃ q, getIamSteelEfficiencies effS prodS energyS cubeVarsS dataS years year
          = .num q ∧ 1 / 2 ≤ q ∧ q ≤ 1)) ∧
    (getIamElectricityEfficiencies years year eS ≠ .nan ∧
     getGainsEmissionRatio years year gS ≠ .nan ∧
     (∃ q, getIamFuelEfficiencies years year fS = .num q ∧ 1 / 2 ≤ q ∧ q ≤ 2) ∧
     (∃ q, getIamCementEfficiencies effC prodC energyC cubeVarsC dataC years year
         = .num q ∧ 1 / 2 ≤ q ∧ q ≤ 2) ∧
     (∃ q, getIamSteelEfficiencies effS prodS energyS cubeVarsS dataS years year
         = .num q ∧ 1 / 2 ≤ q ∧ q ≤ 2)) ∧
    ((interpV years eS year).divv (eS 2020) = .nan →
      getIamElectricityEfficiencies years year eS = .num 1) ∧
    ((Val.num 1).divv ((interpV years gS year).divv (gS 2020)) = .nan →
      getGainsEmissionRatio years year gS = .num 1) ∧
    ((interpV years fS year).divv (fS 2020) = .nan →
      getIamFuelEfficiencies years year fS = .num 1) := by
  refine ⟨fun h => ?_, fun h => ?_, ⟨?_, ?_, ?_, ?_, ?_⟩, fun h => ?_, fun h => ?_, fun h => ?_⟩
  · exact ⟨valGE1_post year _ h, valGE1_post year _ h,
      clip_of_valGE1 _ (valGE1_post year _ h), clip_of_valGE1 _ (valGE1_post year _ h),
      clip_of_valGE1 _ (valGE1_post year _ h)⟩
  · exact ⟨valLE1_post year _ h, valLE1_post year _ h,
      clip_of_valLE1 _ (valLE1_post year _ h), clip_of_valLE1 _ (valLE1_post year _ h),
      clip_of_valLE1 _ (valLE1_post year _ h)⟩
  · exact post_ne_nan year _
  · exact post_ne_nan year _
  · exact clip_half_two_of_ne_nan _ (post_ne_nan year _)
  · exact clip_half_two_of_ne_nan _ (post_ne_nan year _)
  · exact clip_half_two_of_ne_nan _ (post_ne_nan year _)
  · unfold getIamElectricityEfficiencies
    rw [h, post_of_nan]
  · unfold getGainsEmissionRatio
    rw [h, post_of_nan]
  · unfold getIamFuelEfficiencies
    rw [h, post_of_nan]
    norm_num [clipv]

theorem foldl_min_le_init (xs : List ℤ) (x : ℤ) : xs.foldl min x ≤ x := by
  induction xs generalizing x with
  | nil => exact le_refl x
  | cons a t ih => exact le_trans (ih (min x a)) (min_le_left x a)

theorem foldl_min_le_mem : ∀ (xs : List ℤ) (x a : ℤ), a ∈ xs → xs.foldl min x ≤ a := by
  intro xs
  induction xs with
  | nil => intro x a ha; cases ha
  | cons b t ih =>
    intro x a ha
    rcases List.mem_cons.mp ha with h | h
    · subst h
      exact le_trans (foldl_min_le_init t (min x a)) (min_le_right x a)
    · exact ih (min x b) a h

theorem foldl_min_mem : ∀ (xs : List ℤ) (x : ℤ), xs.foldl min x = x ∨ xs.foldl min x ∈ xs := by
  intro xs
  induction xs with
  | nil => intro x; exact Or.inl rfl
  | cons a t ih =>
    intro x
    rcases ih (min x a) with h | h
    · rcases le_total x a with hxa | hxa
      · left
        simp only [List.foldl_cons]
        rw [h, min_eq_left hxa]
      · right
        simp only [List.foldl_cons]
        rw [h, min_eq_right hxa]
        exact List.mem_cons_self a t
    · right
      simp only [List.foldl_cons]
      exact List.mem_cons_of_mem a h

theorem listMin_le (l : List ℤ) (a : ℤ) (ha : a ∈ l) : listMin l ≤ a := by
  cases l with
  | nil => cases ha
  | cons x xs =>
    rcases List.mem_cons.mp ha with h | h
    · subst h
      exact foldl_min_le_init xs a
    · exact foldl_min_le_mem xs x a h

theorem listMin_mem (l : List ℤ) (h : l ≠ []) : listMin l ∈ l := by
  cases l with
  | nil => exact absurd rfl h
  | cons x xs =>
    rcases foldl_min_mem xs x with h1 | h1
    · show xs.foldl min x ∈ x :: xs
      rw [h1]
      exact List.mem_cons_self x xs
    · exact List.mem_cons_of_mem x h1

theorem foldl_max_le_init (xs : List ℤ) (x : ℤ) : x ≤ xs.foldl max x := by
  induction xs generalizing x with
  | nil => exact le_refl x
  | cons a t ih => exact le_trans (le_max_left x a) (ih (max x a))

theorem foldl_max_le_mem : ∀ (xs : List ℤ) (x a : ℤ), a ∈ xs → a ≤ xs.foldl max x := by
  intro xs
  induction xs with
  | nil => intro x a ha; cases ha
  | cons b t ih =>
    intro x a ha
    rcases List.mem_cons.mp ha with h | h
    · subst h
      exact le_trans (le_max_right x a) (foldl_max_le_init t (max x a))
    · exact ih (max x b) a h

theorem foldl_max_mem : ∀ (xs : List ℤ) (x : ℤ), xs.foldl max x = x ∨ xs.foldl max x ∈ xs := by
  intro xs
  induction xs with
  | nil => intro x; exact Or.inl rfl
  | cons a t ih =>
    intro x
    rcases ih (max x a) with h | h
    · rcases le_total x a with hxa | hxa
      · right
        simp only [List.foldl_cons]
        rw [h, max_eq_right hxa]
        exact List.mem_cons_self a t
      · left
        simp only [List.foldl_cons]
        rw [h, max_eq_left hxa]
    · right
      simp only [List.foldl_cons]
      exact List.mem_cons_of_mem a h

theorem le_listMax (l : List ℤ) (a : ℤ) (ha : a ∈ l) : a ≤ listMax l := by
  cases l with
  | nil => cases ha
  | cons x xs =>
    rcases List.mem_cons.mp ha with h | h
    · subst h
      exact foldl_max_le_init xs a
    · exact foldl_max_le_mem xs x a h

theorem listMax_mem (l : List ℤ) (h : l ≠ []) : listMax l ∈ l := by
  cases l with
  | nil => exact absurd rfl h
  | cons x xs =>
    rcases foldl_max_mem xs x with h1 | h1
    · show xs.foldl max x ∈ x :: xs
      rw [h1]
      exact List.mem_cons_self x xs
    · exact List.mem_cons_of_mem x h1

theorem findBracket_some : ∀ (l : List ℤ) (y : ℤ), List.Chain' (· < ·) l →
    (∃ a ∈ l, a ≤ y) → (∃ b ∈ l, y ≤ b) → 2 ≤ l.length →
    ∃ y0 y1, findBracket l y = some (y0, y1) ∧ y0 ≤ y ∧ y ≤ y1 ∧ y0 < y1 ∧
      y0 ∈ l ∧ y1 ∈ l := by
  intro l
  induction l with
  | nil => intro y _ _ _ h2; simp at h2
  | cons x0 xs ih =>
    intro y hc hlo hhi h2
    cases xs with
    | nil => simp at h2
    | cons x1 rest =>
      have hx01 : x0 < x1 := (List.chain'_cons.mp hc).1
      by_cases hy : y ≤ x1
      · have hx0y : x0 ≤ y := by
          obtain ⟨a, ha, hay⟩ := hlo
          rcases List.mem_cons.mp ha with h | h
          · omega
          · have hp := List.chain'_iff_pairwise.mp hc
            have := (List.pairwise_cons.mp hp).1 a h
            omega
        refine ⟨x0, x1, ?_, hx0y, hy, hx01, List.mem_cons_self _ _,
          List.mem_cons_of_mem _ (List.mem_cons_self _ _)⟩
        unfold findBracket
        rw [if_pos ⟨hx0y, hy⟩]
      · have hx1y : x1 < y := by omega
        have hrest : rest ≠ [] := by
          intro hr
          subst hr
          obtain ⟨b, hb, hyb⟩ := hhi
          have hp := List.chain'_iff_pairwise.mp hc
          rcases List.mem_cons.mp hb with h | h
          · omega
          · rcases List.mem_cons.mp h with h1 | h1
            · omega
            · cases h1
        have h2r : 2 ≤ (x1 :: rest).length := by
          cases rest with
          | nil => exact absurd rfl hrest
          | cons c cs => simp
        have hhi2 : ∃ b ∈ x1 :: rest, y ≤ b := by
          obtain ⟨b, hb, hyb⟩ := hhi
          rcases List.mem_cons.mp hb with h | h
          · omega
          · exact ⟨b, h, hyb⟩
        obtain ⟨y0, y1, hbr, ha1, ha2, ha3, ha4, ha5⟩ :=
          ih y (List.chain'_cons.mp hc).2 ⟨x1, List.mem_cons_self _ _, le_of_lt hx1y⟩
            hhi2 h2r
        refine ⟨y0, y1, ?_, ha1, ha2, ha3, List.mem_cons_of_mem _ ha4,
          List.mem_cons_of_mem _ ha5⟩
        unfold findBracket
        rw [if_neg (by omega)]
        exact hbr

theorem interpV_bracket_num (l : List ℤ) (f : ℤ → Val) (y y0 y1 : ℤ) (a b : ℚ)
    (hb : findBracket l y = some (y0, y1)) (hne : y0 ≠ y1)
    (ha : f y0 = .num a) (hbv : f y1 = .num b) :
    interpV l f y = .num (a + ((y : ℚ) - (y0 : ℚ)) / ((y1 : ℚ) - (y0 : ℚ)) * (b - a)) := by
  unfold interpV
  rw [hb]
  simp only [if_neg hne, ha, hbv, Val.subv, Val.negv, Val.addv, Val.mulv]
  congr 1
  ring

theorem t_bounds (y y0 y1 : ℤ) (h0 : y0 ≤ y) (h1 : y ≤ y1) (hlt : y0 < y1) :
    0 ≤ ((y : ℚ) - (y0 : ℚ)) / ((y1 : ℚ) - (y0 : ℚ)) ∧
    ((y : ℚ) - (y0 : ℚ)) / ((y1 : ℚ) - (y0 : ℚ)) ≤ 1 := by
  have hd : (0 : ℚ) < (y1 : ℚ) - (y0 : ℚ) := by
    have h3 : (y0 : ℚ) < (y1 : ℚ) := by exact_mod_cast hlt
    linarith
  constructor
  · apply div_nonneg _ (le_of_lt hd)
    have h3 : (y0 : ℚ) ≤ (y : ℚ) := by exact_mod_cast h0
    linarith
  · rw [div_le_one hd]
    have h3 : (y : ℚ) ≤ (y1 : ℚ) := by exact_mod_cast h1
    linarith

theorem convex_bounds (a b t : ℚ) (h0 : 0 ≤ t) (h1 : t ≤ 1) :
    min a b ≤ a + t * (b - a) ∧ a + t * (b - a) ≤ max a b := by
  rcases le_total a b with h | h
  · constructor
    · rw [min_eq_left h]
      nlinarith
    · rw [max_eq_right h]
      nlinarith
  · constructor
    · rw [min_eq_right h]
      nlinarith
    · rw [max_eq_left h]
      nlinarith

theorem selectAvailable_all (cubeVars wanted : List String)
    (hp : ∀ t ∈ wanted, t ∈ cubeVars) :
    selectAvailable cubeVars wanted = .ok wanted := by
  unfold selectAvailable
  rw [if_pos (List.all_eq_true.mpr (fun t ht => decide_eq_true (hp t ht)))]

theorem selectAvailable_partial (cubeVars wanted : List String)
    (hp : ∃ t ∈ wanted, t ∈ cubeVars) (hm : ∃ t ∈ wanted, t ∉ cubeVars) :
    selectAvailable cubeVars wanted
      = .ok (wanted.filter (fun t => decide (t ∈ cubeVars))) := by
  obtain ⟨tp, htp, hp2⟩ := hp
  obtain ⟨tm, htm, hm2⟩ := hm
  unfold selectAvailable
  rw [if_neg, if_pos]
  · apply List.length_pos_of_mem (a := tp)
    rw [List.mem_filter]
    exact ⟨htp, decide_eq_true hp2⟩
  · intro hall
    exact hm2 (of_decide_eq_true (List.all_eq_true.mp hall tm htm))

theorem selectAvailable_none (cubeVars wanted : List String)
    (hm : ∀ t ∈ wanted, t ∉ cubeVars) (hne : wanted ≠ []) :
    selectAvailable cubeVars wanted = .error .systemExit := by
  obtain ⟨t0, ht0⟩ := List.exists_mem_of_ne_nil wanted hne
  have hfil : wanted.filter (fun t => decide (t ∈ cubeVars)) = [] := by
    rw [List.filter_eq_nil_iff]
    intro t ht
    simp only [decide_eq_true_eq]
    exact hm t ht
  unfold selectAvailable
  rw [if_neg, if_neg]
  · rw [hfil]
    simp
  · intro hall
    exact hm t0 ht0 (of_decide_eq_true (List.all_eq_true.mp hall t0 ht0))

/-- The generic attributional share computation: with every selected
value a rational and a nonzero per-region sum, each share is the value
divided by the sum and the shares sum to exactly 1. -/
theorem shareFun_sum_one (avail : List String) (g : String → Val) (v : String → ℚ)
    (hv : ∀ t ∈ avail, g t = .num (v t)) (hS : (avail.map v).sum ≠ 0) :
    (∀ t ∈ avail, (g t).divv (sumSkip (avail.map g)) = .num (v t / (avail.map v).sum)) ∧
    sumSkip (avail.map (fun t => (g t).divv (sumSkip (avail.map g)))) = .num 1 := by
  have hmap : avail.map g = avail.map (fun t => Val.num (v t)) := List.map_congr_left hv
  have hden : sumSkip (avail.map g) = .num ((avail.map v).sum) := by
    rw [hmap, sumSkip_map_num]
  have hpt : ∀ t ∈ avail,
      (g t).divv (sumSkip (avail.map g)) = .num (v t / (avail.map v).sum) := by
    intro t ht
    rw [hv t ht, hden]
    simp [Val.divv, hS]
  refine ⟨hpt, ?_⟩
  rw [List.map_congr_left hpt, sumSkip_map_num]
  congr 1
  rw [list_sum_map_div, div_self hS]

/-- Claim C9: the year-bound validation of the cube derivations fails
with KeyError, before any further computation, exactly when the
requested year is strictly below the minimum or strictly above the
maximum of the year axis; for an in-bounds year the value is resolved by
linear interpolation between the two bracketing tabulated years (a
convex combination of the two tabulated values, hence never an
extrapolation outside their range). -/
theorem c9_year_bounds_and_linear_interpolation
    (cubeVars techs : List String) (years : List ℤ)
    (data : String → String → ℤ → Val) (year : ℤ) :
    ((year < listMin years ∨ listMax years < year) →
      getIamElectricityMarkets cubeVars techs years data year = .error .keyError ∧
      getIamProductionVolumes cubeVars techs years data year = .error .keyError) ∧
    (¬(year < listMin years ∨ listMax years < year) →
      List.Chain' (· < ·) years → 2 ≤ years.length →
      ∃ y0 y1, findBracket years year = some (y0, y1) ∧ y0 ∈ years ∧ y1 ∈ years ∧
        y0 ≤ year ∧ year ≤ y1 ∧ y0 < y1 ∧
        ∀ (f : ℤ → Val) (a b : ℚ), f y0 = .num a → f y1 = .num b →
          interpV years f year
            = .num (a + ((year : ℚ) - (y0 : ℚ)) / ((y1 : ℚ) - (y0 : ℚ)) * (b - a)) ∧
          min a b ≤ a + ((year : ℚ) - (y0 : ℚ)) / ((y1 : ℚ) - (y0 : ℚ)) * (b - a) ∧
          a + ((year : ℚ) - (y0 : ℚ)) / ((y1 : ℚ) - (y0 : ℚ)) * (b - a) ≤ max a b) := by
  constructor
  · intro h
    have hy : checkYearBounds years year = .error .keyError := by
      unfold checkYearBounds
      rw [if_pos h]
    constructor
    · unfold getIamElectricityMarkets
      rw [hy]
    · unfold getIamProductionVolumes
      rw [hy]
  · intro h hc h2
    have hne : years ≠ [] := by
      intro he
      subst he
      simp at h2
    have hlo : ∃ a ∈ years, a ≤ year := ⟨listMin years, listMin_mem years hne, by omega⟩
    have hhi : ∃ b ∈ years, year ≤ b := ⟨listMax years, listMax_mem years hne, by omega⟩
    obtain ⟨y0, y1, hbr, hy0, hy1, hlt, hm0, hm1⟩ := findBracket_some years year hc hlo hhi h2
    refine ⟨y0, y1, hbr, hm0, hm1, hy0, hy1, hlt, ?_⟩
    intro f a b ha hb
    obtain ⟨ht0, ht1⟩ := t_bounds year y0 y1 hy0 hy1 hlt
    obtain ⟨hc1, hc2⟩ := convex_bounds a b _ ht0 ht1
    exact ⟨interpV_bracket_num years f year y0 y1 a b hbr (by omega) ha hb, hc1, hc2⟩

/-- Witness for C9: the out-of-bounds target year 2050 on the axis
[2020, 2030] is fatal for both derivations, and the in-bounds
non-tabulated year 2025 is resolved by linear interpolation between 2020
and 2030. -/
theorem c9_witness :
    getIamElectricityMarkets (["a"]) (["a"]) [2020, 2030] (fun _ _ _ => Val.num 1) 2050
      = .error .keyError ∧
    getIamProductionVolumes (["a"]) (["a"]) [2020, 2030] (fun _ _ _ => Val.num 1) 2050
      = .error .keyError ∧
    interpV [2020, 2030] (fun y => if y = 2020 then Val.num 0 else Val.num 1) 2025
      = .num (1 / 2) := by
  have h1 := c9_year_bounds_and_linear_interpolation (["a"]) (["a"]) [2020, 2030]
    (fun _ _ _ => Val.num 1) 2050
  have h2 := c9_year_bounds_and_linear_interpolation (["a"]) (["a"]) [2020, 2030]
    (fun _ _ _ => Val.num 1) 2025
  obtain ⟨y0, y1, hbr, _, _, _, _, _, hf⟩ := h2.2 (by decide)
    (by norm_num [List.chain'_cons, List.chain'_singleton]) (by decide)
  have hbv : findBracket [2020, 2030] 2025 = some (2020, 2030) := by decide
  rw [hbv] at hbr
  obtain ⟨he0, he1⟩ := Prod.mk.injEq _ _ _ _ ▸ Option.some.injEq _ _ ▸ hbr
  have h01 := (h1.1 (by decide))
  refine ⟨h01.1, h01.2, ?_⟩
  have := (hf (fun y => if y = 2020 then Val.num 0 else Val.num 1) 0 1
    (by rw [← he0]; decide) (by rw [← he1]; decide)).1
  rw [this]
  congr 1
  rw [← he0, ← he1]
  norm_num

/-- Witness for C2: the concrete constant series 1 over the year axes
[2020, 2030] and [2010, 2020], evaluated at the target years 2030 and
2010, satisfy the post-2020 and the pre-2020 clamp conclusions. -/
theorem c2_witness :
    valGE1 (getIamElectricityEfficiencies [2020, 2030] 2030 (fun _ => Val.num 1)) = true ∧
    valLE1 (getIamElectricityEfficiencies [2010, 2020] 2010 (fun _ => Val.num 1)) = true ∧
    (∃ q, getIamFuelEfficiencies [2020, 2030] 2030 (fun _ => Val.num 1)
        = .num q ∧ 1 ≤ q ∧ q ≤ 2) := by
  have h1 := c2_efficiency_and_emission_ratio_clamps [2020, 2030] 2030
    (fun _ => Val.num 1) (fun _ => Val.num 1) (fun _ => Val.num 1)
    none ("p") [] [] (fun _ _ => Val.num 1)
    none ("p") [] [] (fun _ _ => Val.num 1)
  have h2 := c2_efficiency_and_emission_ratio_clamps [2010, 2020] 2010
    (fun _ => Val.num 1) (fun _ => Val.num 1) (fun _ => Val.num 1)
    none ("p") [] [] (fun _ _ => Val.num 1)
    none ("p") [] [] (fun _ _ => Val.num 1)
  have ha := h1.1 (by decide)
  have hb := h2.2.1 (by decide)
  exact ⟨ha.1, hb.1, ha.2.2.1⟩

/-- Claim C1: in attributional mode, with every selected technology
present and rational-valued and a nonzero per-region sum, the
electricity market shares (per region and tabulated year) and the fuel
market shares (per region at the interpolated target year, computed on
the World-fixed cube) each equal the value divided by the per-region sum
over the selected technologies and sum to exactly 1 (hence to 1.0 within
1e-9) across the selected technologies of the region. -/
theorem c1_attributional_market_shares
    (cubeVarsE techsE : List String) (yearsE : List ℤ)
    (dataE : String → String → ℤ → Val)
    (regions cubeVarsF techsF : List String) (yearsF : List ℤ)
    (dataF : String → String → ℤ → Val) (year : ℤ)
    (r : String) (y : ℤ) (v w : String → ℚ)
    (hyE : ¬(year < listMin yearsE ∨ listMax yearsE < year))
    (hallE : ∀ t ∈ techsE, t ∈ cubeVarsE)
    (hvE : ∀ t ∈ techsE, dataE r t y = .num (v t))
    (hSE : (techsE.map v).sum ≠ 0)
    (hyF : ¬(year < listMin yearsF ∨ listMax yearsF < year))
    (hallF : ∀ t ∈ techsF, t ∈ cubeVarsF)
    (hWorld : "World" ∈ regions)
    (hvF : ∀ t ∈ techsF,
      interpV yearsF (worldFixData regions techsF dataF r t) year = .num (w t))
    (hSF : (techsF.map w).sum ≠ 0) :
    getIamElectricityMarkets cubeVarsE techsE yearsE dataE year
      = .ok (techsE, elecShareFun techsE dataE) ∧
    (∀ t ∈ techsE, elecShareFun techsE dataE r t y
      = .num (v t / (techsE.map v).sum)) ∧
    sumSkip (techsE.map (fun t => elecShareFun techsE dataE r t y)) = .num 1 ∧
    getIamFuelMarkets regions cubeVarsF techsF yearsF dataF year
      = .ok (techsF, fuelShareFun techsF yearsF year (worldFixData regions techsF dataF)) ∧
    (∀ t ∈ techsF, fuelShareFun techsF yearsF year (worldFixData regions techsF dataF) r t
      = .num (w t / (techsF.map w).sum)) ∧
    sumSkip (techsF.map
        (fun t => fuelShareFun techsF yearsF year (worldFixData regions techsF dataF) r t))
      = .num 1 := by
  have hyE2 : checkYearBounds yearsE year = .ok () := by
    unfold checkYearBounds
    rw [if_neg hyE]
  have hyF2 : checkYearBounds yearsF year = .ok () := by
    unfold checkYearBounds
    rw [if_neg hyF]
  have hE := shareFun_sum_one techsE (fun t => dataE r t y) v hvE hSE
  have hF := shareFun_sum_one techsF
    (fun t => interpV yearsF (worldFixData regions techsF dataF r t) year) w hvF hSF
  refine ⟨?_, hE.1, hE.2, ?_, hF.1, hF.2⟩
  · unfold getIamElectricityMarkets
    rw [hyE2, selectAvailable_all cubeVarsE techsE hallE]
  · unfold getIamFuelMarkets
    rw [hyF2, if_pos]
    exact ⟨List.all_eq_true.mpr (fun t ht => decide_eq_true (hallF t ht)), hWorld⟩

/-- Witness for C1: a two-technology electricity cube and a
one-technology fuel cube, constant 1, over [2020, 2030] at target year
2025 in region R1; both derivations succeed and the shares sum to 1. -/
theorem c1_witness :
    getIamElectricityMarkets ["a", "b"] ["a", "b"] [2020, 2030] (fun _ _ _ => Val.num 1) 2025
      = .ok (["a", "b"], elecShareFun ["a", "b"] (fun _ _ _ => Val.num 1)) ∧
    sumSkip ((["a", "b"]).map
        (fun t => elecShareFun ["a", "b"] (fun _ _ _ => Val.num 1) ("R1") t 2030))
      = .num 1 ∧
    getIamFuelMarkets ["R1", "World"] ["f"] ["f"] [2020, 2030] (fun _ _ _ => Val.num 1) 2025
      = .ok (["f"], fuelShareFun ["f"] [2020, 2030] 2025
          (worldFixData ["R1", "World"] ["f"] (fun _ _ _ => Val.num 1))) ∧
    sumSkip ((["f"]).map
        (fun t => fuelShareFun ["f"] [2020, 2030] 2025
          (worldFixData ["R1", "World"] ["f"] (fun _ _ _ => Val.num 1)) ("R1") t))
      = .num 1 := by
  have hvF : ∀ t ∈ (["f"] : List String),
      interpV [2020, 2030]
        (worldFixData ["R1", "World"] ["f"] (fun _ _ _ => Val.num 1) ("R1") t) 2025
        = Val.num ((fun _ => (1 : ℚ)) t) := by
    intro t ht
    have ht2 := List.mem_singleton.mp ht
    subst ht2
    have hb : findBracket [2020, 2030] 2025 = some (2020, 2030) := by decide
    have hv0 : ∀ y : ℤ,
        worldFixData ["R1", "World"] ["f"] (fun _ _ _ => Val.num 1) ("R1") ("f") y
          = Val.num 1 := fun _ => rfl
    unfold interpV
    rw [hb]
    simp only [hv0]
    norm_num [Val.subv, Val.negv, Val.addv, Val.mulv]
  have h := c1_attributional_market_shares ["a", "b"] ["a", "b"] [2020, 2030]
    (fun _ _ _ => Val.num 1) ["R1", "World"] ["f"] ["f"] [2020, 2030]
    (fun _ _ _ => Val.num 1) 2025 ("R1") 2030 (fun _ => 1) (fun _ => 1)
    (by decide) (by decide) (by decide) (by norm_num) (by decide) (by decide)
    (by decide) hvF (by norm_num)
  exact ⟨h.1, h.2.2.1, h.2.2.2.1, h.2.2.2.2.2⟩

/-- Claim C8: when some but not all of the requested canonical
technologies are missing from the cube, the market-share and
production-volume derivations drop the missing ones and continue with the
remainder (the remaining shares still summing to exactly 1); when all
requested technologies are missing the derivation is fatal
(SystemExit). -/
theorem c8_missing_variables_dropped_or_fatal
    (cubeVars techs : List String) (years : List ℤ)
    (data : String → String → ℤ → Val) (year : ℤ) (r : String) (y : ℤ) (v : String → ℚ)
    (hyear : ¬(year < listMin years ∨ listMax years < year)) :
    ((∃ t ∈ techs, t ∈ cubeVars) → (∃ t ∈ techs, t ∉ cubeVars) →
      getIamElectricityMarkets cubeVars techs years data year
        = .ok (techs.filter (fun t => decide (t ∈ cubeVars)),
            elecShareFun (techs.filter (fun t => decide (t ∈ cubeVars))) data) ∧
      getIamProductionVolumes cubeVars techs years data year
        = .ok (techs.filter (fun t => decide (t ∈ cubeVars)), fun r2 p y2 => data r2 p y2)) ∧
    ((∃ t ∈ techs, t ∈ cubeVars) → (∃ t ∈ techs, t ∉ cubeVars) →
      (∀ t ∈ techs.filter (fun t => decide (t ∈ cubeVars)), data r t y = .num (v t)) →
      ((techs.filter (fun t => decide (t ∈ cubeVars))).map v).sum ≠ 0 →
      sumSkip ((techs.filter (fun t => decide (t ∈ cubeVars))).map
          (fun t => elecShareFun (techs.filter (fun t2 => decide (t2 ∈ cubeVars))) data r t y))
        = .num 1) ∧
    ((∀ t ∈ techs, t ∉ cubeVars) → techs ≠ [] →
      getIamElectricityMarkets cubeVars techs years data year = .error .systemExit ∧
      getIamProductionVolumes cubeVars techs years data year = .error .systemExit) := by
  have hy2 : checkYearBounds years year = .ok () := by
    unfold checkYearBounds
    rw [if_neg hyear]
  refine ⟨fun hp hm => ?_, fun hp hm hv hS => ?_, fun hm hne => ?_⟩
  · constructor
    · unfold getIamElectricityMarkets
      rw [hy2, selectAvailable_partial cubeVars techs hp hm]
    · unfold getIamProductionVolumes
      rw [hy2, selectAvailable_partial cubeVars techs hp hm]
  · exact (shareFun_sum_one (techs.filter (fun t => decide (t ∈ cubeVars)))
      (fun t => data r t y) v hv hS).2
  · constructor
    · unfold getIamElectricityMarkets
      rw [hy2, selectAvailable_none cubeVars techs hm hne]
    · unfold getIamProductionVolumes
      rw [hy2, selectAvailable_none cubeVars techs hm hne]

/-- Witness for C8: of a 3-technology request with technology c absent
from the cube, the electricity market derivation returns the remaining
two technologies with shares summing to 1, and a request whose
technologies are all absent is fatal. -/
theorem c8_witness :
    getIamElectricityMarkets ["a", "b"] ["a", "b", "c"] [2020, 2030]
      (fun _ _ _ => Val.num 1) 2025
      = .ok ((["a", "b", "c"]).filter (fun t => decide (t ∈ (["a", "b"] : List String))),
          elecShareFun ((["a", "b", "c"]).filter
            (fun t => decide (t ∈ (["a", "b"] : List String)))) (fun _ _ _ => Val.num 1)) ∧
    sumSkip (((["a", "b", "c"]).filter (fun t => decide (t ∈ (["a", "b"] : List String)))).map
        (fun t => elecShareFun ((["a", "b", "c"]).filter
          (fun t2 => decide (t2 ∈ (["a", "b"] : List String)))) (fun _ _ _ => Val.num 1)
          ("R1") t 2030))
      = .num 1 ∧
    getIamElectricityMarkets ["a", "b"] ["z"] [2020, 2030] (fun _ _ _ => Val.num 1) 2025
      = .error .systemExit := by
  have h1 := c8_missing_variables_dropped_or_fatal ["a", "b"] ["a", "b", "c"] [2020, 2030]
    (fun _ _ _ => Val.num 1) 2025 ("R1") 2030 (fun _ => 1) (by decide)
  have h2 := c8_missing_variables_dropped_or_fatal ["a", "b"] ["z"] [2020, 2030]
    (fun _ _ _ => Val.num 1) 2025 ("R1") 2030 (fun _ => 1) (by decide)
  refine ⟨(h1.1 (by decide) (by decide)).1, ?_, (h2.2.2 (by decide) (by decide)).1⟩
  exact h1.2.1 (by decide) (by decide) (by decide) (by simp [List.filter])

/-- Claim C4: in consequential mode, a region whose interpolated total
volume at year+H equals its (nonzero) total volume at year has
volume_change = 0, while the average capital replacement rate
-1/avg_lifetime is negative for a positive average lifetime, so the
branch condition volume_change < R_avg is false and the computation takes
the increase branch: technologies with negative net growth are zeroed,
the remainder renormalized, weighted by the base-year volumes and
renormalized again (the body of mmIncrease). -/
theorem c4_flat_market_takes_increase_branch
    (techs : List String) (lifetime : String → ℚ) (years : List ℤ)
    (data : String → ℤ → Val) (year horizon : ℤ) (V L : ℚ)
    (hs : interpV years (fun y => sumSkip (techs.map (fun t => data t y))) (year + horizon)
        = interpV years (fun y => sumSkip (techs.map (fun t => data t y))) year)
    (hnum : interpV years (fun y => sumSkip (techs.map (fun t => data t y))) year = .num V)
    (hV : V ≠ 0)
    (hL : mmAvgLifetime techs lifetime data year = .num L) (hLpos : 0 < L) :
    (mmVolumeChange techs years data year horizon).ltv
        (mmAvgCapReplRate techs lifetime data year) = false ∧
    transformToMarginalMarkets techs lifetime years data year horizon
      = mmIncrease techs (mmWithRate lifetime years data year horizon)
          (fun t => mmZeroedData data t year) := by
  have hvc : mmVolumeChange techs years data year horizon = .num 0 := by
    unfold mmVolumeChange
    rw [hs, hnum]
    simp [Val.divv, hV, Val.subv, Val.negv, Val.addv, div_self hV]
  have har : mmAvgCapReplRate techs lifetime data year = .num (-1 / L) := by
    unfold mmAvgCapReplRate
    rw [hL]
    simp [Val.divv, ne_of_gt hLpos]
  have hltf : (Val.num 0).ltv (Val.num (-1 / L)) = false := by
    simp only [Val.ltv, decide_eq_false_iff_not, not_lt]
    exact le_of_lt (div_neg_of_neg_of_pos (by norm_num) hLpos)
  constructor
  · rw [hvc, har]
    exact hltf
  · unfold transformToMarginalMarkets
    rw [hvc, har, if_neg]
    rw [hltf]
    simp

/-- Witness for C4: a one-technology region with constant volume 1 over
[2020, 2050] (so the total volume at 2050 equals the total at 2020) and
lifetime 20 takes the increase branch. -/
theorem c4_witness :
    (mmVolumeChange ["coal"] [2020, 2050] (fun _ _ => Val.num 1) 2020 30).ltv
        (mmAvgCapReplRate ["coal"] (fun _ => 20) (fun _ _ => Val.num 1) 2020) = false ∧
    transformToMarginalMarkets ["coal"] (fun _ => 20) [2020, 2050]
        (fun _ _ => Val.num 1) 2020 30
      = mmIncrease ["coal"]
          (mmWithRate (fun _ => 20) [2020, 2050] (fun _ _ => Val.num 1) 2020 30)
          (fun t => mmZeroedData (fun _ _ => Val.num 1) t 2020) := by
  have hI : ∀ z : ℤ, findBracket [2020, 2050] z = some (2020, 2050) →
      interpV [2020, 2050] (fun y => sumSkip ((["coal"] : List String).map
        (fun t => (fun (_ : String) (_ : ℤ) => Val.num 1) t y))) z = Val.num 1 := by
    intro z hb
    unfold interpV
    rw [hb]
    simp [sumSkip, Val.addv, Val.subv, Val.negv, Val.mulv]
  have hL : mmAvgLifetime ["coal"] (fun _ => 20) (fun _ _ => Val.num 1) 2020
      = Val.num 20 := by
    simp [mmAvgLifetime, mmCurrentShare, sumSkip, valSum, Val.addv, Val.mulv, Val.divv]
  exact c4_flat_market_takes_increase_branch ["coal"] (fun _ => 20) [2020, 2050]
    (fun _ _ => Val.num 1) 2020 30 1 20
    (by rw [hI (2020 + 30) (by decide), hI 2020 (by decide)])
    (hI 2020 (by decide)) (by norm_num) hL (by norm_num)

theorem findBracket_bounds : ∀ (l : List ℤ) (y y0 y1 : ℤ),
    findBracket l y = some (y0, y1) → y0 ≤ y ∧ y ≤ y1 := by
  intro l
  induction l with
  | nil => intro y y0 y1 h; simp [findBracket] at h
  | cons a xs ih =>
    cases xs with
    | nil => intro y y0 y1 h; simp [findBracket] at h
    | cons b rest =>
      intro y y0 y1 h
      by_cases hc : a ≤ y ∧ y ≤ b
      · rw [findBracket, if_pos hc] at h
        obtain ⟨h1, h2⟩ := Prod.mk.injEq _ _ _ _ ▸ Option.some.injEq _ _ ▸ h
        omega
      · rw [findBracket, if_neg hc] at h
        exact ih y y0 y1 h

theorem interpV_eq_of_bracket (years : List ℤ) (f : ℤ → Val) (y y0 y1 : ℤ)
    (hb : findBracket years y = some (y0, y1)) :
    interpV years f y
      = if y0 = y1 then f y0
        else (f y0).addv
          ((Val.num (((y : ℚ) - (y0 : ℚ)) / ((y1 : ℚ) - (y0 : ℚ)))).mulv
            ((f y1).subv (f y0))) := by
  unfold interpV
  rw [hb]

theorem interpV_unit (years : List ℤ) (f : ℤ → Val) (y y0 y1 : ℤ)
    (hb : findBracket years y = some (y0, y1))
    (hf : ∀ z, ∃ q, f z = .num q ∧ 0 ≤ q ∧ q ≤ 1) :
    ∃ q, interpV years f y = .num q ∧ 0 ≤ q ∧ q ≤ 1 := by
  obtain ⟨hy0, hy1⟩ := findBracket_bounds years y y0 y1 hb
  by_cases he : y0 = y1
  · obtain ⟨a, ha, ha0, ha1⟩ := hf y0
    refine ⟨a, ?_, ha0, ha1⟩
    rw [interpV_eq_of_bracket years f y y0 y1 hb, if_pos he]
    exact ha
  · obtain ⟨a, ha, ha0, ha1⟩ := hf y0
    obtain ⟨b, hbv, hb0, hb1⟩ := hf y1
    have hlt : y0 < y1 := lt_of_le_of_ne (le_trans hy0 hy1) he
    obtain ⟨ht0, ht1⟩ := t_bounds y y0 y1 hy0 hy1 hlt
    obtain ⟨hc1, hc2⟩ := convex_bounds a b _ ht0 ht1
    refine ⟨a + ((y : ℚ) - (y0 : ℚ)) / ((y1 : ℚ) - (y0 : ℚ)) * (b - a),
      interpV_bracket_num years f y y0 y1 a b hb he ha hbv, ?_, ?_⟩
    · have h3 : (0 : ℚ) ≤ min a b := le_min ha0 hb0
      linarith
    · have h3 : max a b ≤ 1 := max_le ha1 hb1
      linarith

theorem ccRaw_nonworld_unit (regions : List String) (capVar ventVar : String)
    (data : String → String → ℤ → Val) (r : String) (y : ℤ) (hr : ¬ r = "World") :
    ∃ q, clipv 0 1 (ccRateRaw regions capVar ventVar data r y) = .num q ∧
      0 ≤ q ∧ q ≤ 1 := by
  unfold ccRateRaw
  rw [if_neg hr]
  generalize (data r capVar y).divv (sumSkip [data r ventVar y, data r capVar y]) = v
  rcases v with q | _ | _ | _
  · exact ⟨min 1 (max 0 q), rfl, le_min (by norm_num) (le_max_left _ _), min_le_left _ _⟩
  · exact ⟨min 1 (max 0 0), rfl, by norm_num, by norm_num⟩
  · exact ⟨1, rfl, by norm_num, le_refl _⟩
  · exact ⟨0, rfl, le_refl _, by norm_num⟩

/-- Claim C3 (amended): every non-World entry of the carbon-capture-rate
cube lies in [0, 1] (NaN having been replaced by 0 before the clip); the
World entry is recomputed as the sum of captured CO2 over the non-World
regions divided by the sum of captured plus vented CO2 over the
non-World regions whenever that denominator is nonzero (a NaN from a
zero denominator survives, because the fillna precedes the World
overwrite); and the whole returned cube is independent of the raw
cube's World row. -/
theorem c3_carbon_capture_rate
    (regions : List String) (capVar ventVar : String)
    (data data2 : String → String → ℤ → Val) (years : List ℤ) (year : ℤ)
    (r : String) (y y0 y1 : ℤ) (n d : ℚ) :
    (¬ r = "World" → findBracket years year = some (y0, y1) →
      ∃ q, getCarbonCaptureRate regions capVar ventVar data years year r = .num q ∧
        0 ≤ q ∧ q ≤ 1) ∧
    (worldTotSum regions capVar ventVar data y = .num d → ¬ d = 0 →
      worldCapSum regions capVar data y = .num n →
      ccRateRaw regions capVar ventVar data ("World") y = .num (n / d)) ∧
    ((∀ r2, ¬ r2 = "World" → ∀ v2 y2, data r2 v2 y2 = data2 r2 v2 y2) →
      getCarbonCaptureRate regions capVar ventVar data years year r
        = getCarbonCaptureRate regions capVar ventVar data2 years year r) := by
  refine ⟨fun hr hb => ?_, fun htot hd hcap => ?_, fun hagree => ?_⟩
  · exact interpV_unit years _ year y0 y1 hb
      (fun z => ccRaw_nonworld_unit regions capVar ventVar data r z hr)
  · unfold ccRateRaw
    rw [if_pos rfl, htot, hcap]
    simp [Val.divv, hd]
  · unfold getCarbonCaptureRate
    congr 1
    funext z
    congr 1
    unfold ccRateRaw worldCapSum worldTotSum
    by_cases hr : r = "World"
    · rw [if_pos hr, if_pos hr]
      have hmap : ∀ vv : String,
          (regions.filter (fun r2 => decide (r2 ≠ "World"))).map (fun r2 => data r2 vv z)
            = (regions.filter (fun r2 => decide (r2 ≠ "World"))).map
                (fun r2 => data2 r2 vv z) := by
        intro vv
        apply List.map_congr_left
        intro r2 hr2
        have := (List.mem_filter.mp hr2).2
        exact hagree r2 (of_decide_eq_true this) vv z
      rw [hmap capVar, hmap ventVar]
    · rw [if_neg hr, if_neg hr,
        hagree r hr capVar z, hagree r hr ventVar z]

/-- Counterexample for C3: with every captured and vented quantity zero,
the recomputed World entry is 0/0 = NaN; the NaN survives the clip and
the interpolation because the fillna(0) runs before the World overwrite,
so the returned World entry is not in [0, 1]. -/
theorem c3_counterexample :
    getCarbonCaptureRate ["R1", "World"] ("c") ("v") (fun _ _ _ => Val.num 0)
      [2020, 2030] 2025 ("World") = Val.nan ∧
    inUnit (getCarbonCaptureRate ["R1", "World"] ("c") ("v") (fun _ _ _ => Val.num 0)
      [2020, 2030] 2025 ("World")) = false := by
  have hcap : ∀ z : ℤ,
      worldCapSum ["R1", "World"] ("c") (fun _ _ _ => Val.num 0) z = Val.num 0 := by
    intro z
    norm_num [worldCapSum, sumSkip, Val.addv, List.filter]
  have htot : ∀ z : ℤ,
      worldTotSum ["R1", "World"] ("c") ("v") (fun _ _ _ => Val.num 0) z = Val.num 0 := by
    intro z
    norm_num [worldTotSum, sumSkip, Val.addv, List.filter]
  have hraw : ∀ z : ℤ,
      clipv 0 1 (ccRateRaw ["R1", "World"] ("c") ("v") (fun _ _ _ => Val.num 0)
        ("World") z) = Val.nan := by
    intro z
    unfold ccRateRaw
    rw [if_pos rfl, hcap z, htot z]
    norm_num [Val.divv, clipv]
  have hmain : getCarbonCaptureRate ["R1", "World"] ("c") ("v") (fun _ _ _ => Val.num 0)
      [2020, 2030] 2025 ("World") = Val.nan := by
    unfold getCarbonCaptureRate
    have hb : findBracket [2020, 2030] 2025 = some (2020, 2030) := by decide
    unfold interpV
    rw [hb]
    simp only [hraw]
    norm_num [Val.addv, Val.subv, Val.negv, Val.mulv]
  exact ⟨hmain, by rw [hmain]; rfl⟩

/-- Witness for the amended C3: with every quantity 1, the non-World
entry of the returned cube lies in [0, 1] and the recomputed World entry
at a tabulated year is 1/2. -/
theorem c3_witness :
    inUnit (getCarbonCaptureRate ["R1", "World"] ("c") ("v") (fun _ _ _ => Val.num 1)
      [2020, 2030] 2025 ("R1")) = true ∧
    ccRateRaw ["R1", "World"] ("c") ("v") (fun _ _ _ => Val.num 1) ("World") 2020
      = .num (1 / 2) := by
  have h := c3_carbon_capture_rate ["R1", "World"] ("c") ("v")
    (fun _ _ _ => Val.num 1) (fun _ _ _ => Val.num 1) [2020, 2030] 2025 ("R1")
    2020 2020 2030 1 2
  obtain ⟨q, hq, h0, h1⟩ := h.1 (by decide) (by decide)
  refine ⟨?_, ?_⟩
  · rw [hq]
    simp [inUnit, h0, h1]
  · have h2 := h.2.1
      (by simp [worldTotSum, sumSkip, Val.addv, List.filter] <;> norm_num) (by norm_num)
      (by simp [worldCapSum, sumSkip, Val.addv, List.filter])
    exact h2

theorem valSum_map_num (qs : List ℚ) : valSum (qs.map Val.num) = .num qs.sum := by
  induction qs with
  | nil => rfl
  | cons q t ih => simp [valSum, Val.addv, ih]

theorem exists_num_list {α : Type} (c : ℚ) : ∀ (l : List α) (f : α → Val),
    (∀ x ∈ l, ∃ q, f x = Val.num q ∧ c ≤ q) →
    ∃ qs : List ℚ, l.map f = qs.map Val.num ∧ qs.length = l.length ∧ ∀ q ∈ qs, c ≤ q := by
  intro l
  induction l with
  | nil => intro f _; exact ⟨[], rfl, rfl, by simp⟩
  | cons x t ih =>
    intro f h
    obtain ⟨q, hq, hqc⟩ := h x (by simp)
    obtain ⟨qs, h1, h2, h3⟩ := ih f (fun y hy => h y (by simp [hy]))
    refine ⟨q :: qs, by simp [hq, h1], by simp [h2], ?_⟩
    intro r hr
    rcases List.mem_cons.mp hr with h | h
    · subst h
      exact hqc
    · exact h3 r h

theorem dictPut_fresh {α β : Type} [DecidableEq α] (d : List (α × β)) (k : α) (v : β)
    (h : ∀ q ∈ d, q.1 ≠ k) : dictPut d k v = d ++ [(k, v)] := by
  unfold dictPut
  rw [if_neg]
  simp only [List.any_eq_true, decide_eq_true_eq, not_exists, not_and]
  intro q hq
  exact h q hq

theorem foldl_dictPut_append {α β : Type} [DecidableEq α] :
    ∀ (pairs acc : List (α × β)),
      (∀ p ∈ pairs, ∀ q ∈ acc, p.1 ≠ q.1) → (pairs.map Prod.fst).Nodup →
      pairs.foldl (fun d p => dictPut d p.1 p.2) acc = acc ++ pairs := by
  intro pairs
  induction pairs with
  | nil => intro acc _ _; simp
  | cons p ps ih =>
    intro acc hdisj hnd
    simp only [List.foldl_cons]
    have hput : dictPut acc p.1 p.2 = acc ++ [p] := by
      rw [dictPut_fresh]
      intro q hq
      exact (hdisj p (by simp) q hq).symm
    rw [hput, ih (acc ++ [p]) ?_ ?_]
    · simp
    · intro p2 hp2 q hq
      rcases List.mem_append.mp hq with h | h
      · exact hdisj p2 (by simp [hp2]) q h
      · have hone : q = p := by simpa using h
        subst hone
        have := (List.nodup_cons.mp hnd).1
        intro he
        exact this (he ▸ List.mem_map_of_mem Prod.fst hp2)
    · exact (List.nodup_cons.mp hnd).2

theorem flooredPV_bound (e : Exch)
    (h : e.pvol = none ∨ ∃ q, e.pvol = some (Val.num q)) :
    ∃ q, flooredPV e = Val.num q ∧ (1 : ℚ) / 1000000000 ≤ q := by
  rcases h with h | ⟨q, h⟩
  · refine ⟨1 / 1000000000, ?_, le_refl _⟩
    unfold flooredPV
    rw [h]
    simp [Val.ltv]
  · unfold flooredPV
    rw [h]
    simp only [Option.getD_some]
    by_cases hq : q < 1 / 1000000000
    · rw [if_pos (show Val.ltv (Val.num q) (Val.num (1 / 1000000000)) = true by
        simp only [Val.ltv, decide_eq_true_eq]
        exact hq)]
      exact ⟨1 / 1000000000, rfl, le_refl _⟩
    · rw [if_neg (show ¬ Val.ltv (Val.num q) (Val.num (1 / 1000000000)) = true by
        simp only [Val.ltv, decide_eq_true_eq]
        exact hq)]
      exact ⟨q, rfl, le_of_not_lt hq⟩

theorem map_divv_num (l : List Val) (qs : List ℚ) (S : ℚ) (hS : S ≠ 0)
    (h : l = qs.map Val.num) :
    l.map (fun v => v.divv (Val.num S)) = (qs.map (fun q => q / S)).map Val.num := by
  subst h
  induction qs with
  | nil => rfl
  | cons q t ih => simp [Val.divv, hS, ih]

theorem list_sum_div_self (qs : List ℚ) (S : ℚ) :
    (qs.map (fun q => q / S)).sum = qs.sum / S := by
  induction qs with
  | nil => simp
  | cons q t ih => simp [ih, add_div]

theorem pvPairs_structure : ∀ (acts : List Act),
    (∀ a ∈ acts, (a.exchanges.filter (fun e => decide (e.typ = "production"))).length = 1) →
    (pvPairs acts).map Prod.fst = acts.map actKey ∧
    ∀ p ∈ pvPairs acts, ∃ a ∈ acts, ∃ e ∈ a.exchanges, p.2 = flooredPV e := by
  intro acts
  induction acts with
  | nil => intro _; exact ⟨rfl, by simp [pvPairs]⟩
  | cons a as ih =>
    intro hone
    obtain ⟨e, he⟩ := List.length_eq_one.mp (hone a (by simp))
    have hmem : e ∈ a.exchanges := by
      have : e ∈ a.exchanges.filter (fun e2 => decide (e2.typ = "production")) := by
        rw [he]
        simp
      exact (List.mem_filter.mp this).1
    obtain ⟨ih1, ih2⟩ := ih (fun a2 ha2 => hone a2 (by simp [ha2]))
    have hsplit : pvPairs (a :: as) = [(actKey a, flooredPV e)] ++ pvPairs as := by
      unfold pvPairs
      simp only [List.map_cons, List.flatten_cons, he, List.map_cons, List.map_nil]
    constructor
    · rw [hsplit]
      simp only [List.map_append, List.map_cons, List.map_nil, List.map_cons]
      rw [ih1]
      rfl
    · intro p hp
      rw [hsplit] at hp
      rcases List.mem_append.mp hp with h | h
      · have hpe : p = (actKey a, flooredPV e) := by simpa using h
        exact ⟨a, by simp, e, hmem, by rw [hpe]⟩
      · obtain ⟨a2, ha2, e2, he2, hpe2⟩ := ih2 p h
        exact ⟨a2, by simp [ha2], e2, he2, hpe2⟩

/-- Claim C10 (amended): for a nonempty list of activities with pairwise
distinct (name, location, reference product, unit) identities, exactly
one production exchange each, and production-volume fields that are
absent or finite, get_shares_from_production_volume flames each volume at
1e-9 so the total is strictly positive, and the returned shares sum to
exactly 1 over the per-identity dict keys. -/
theorem c10_production_volume_shares (acts : List Act)
    (hne : acts ≠ [])
    (hone : ∀ a ∈ acts,
      (a.exchanges.filter (fun e => decide (e.typ = "production"))).length = 1)
    (hnodup : (acts.map actKey).Nodup)
    (hfin : ∀ a ∈ acts, ∀ e ∈ a.exchanges,
      e.pvol = none ∨ ∃ q, e.pvol = some (Val.num q)) :
    ∃ T : ℚ, 0 < T ∧ valSum ((pvPairs acts).map (fun p => p.2)) = .num T ∧
      valSum ((getSharesFromProductionVolume acts).map (fun p => p.2)) = .num 1 ∧
      (getSharesFromProductionVolume acts).map Prod.fst = acts.map actKey := by
  obtain ⟨hkeys, hvals⟩ := pvPairs_structure acts hone
  have hv : ∀ p ∈ pvPairs acts,
      ∃ q, p.2 = Val.num q ∧ (1 : ℚ) / 1000000000 ≤ q := by
    intro p hp
    obtain ⟨a, ha, e, he, hpe⟩ := hvals p hp
    obtain ⟨q, hq, hq2⟩ := flooredPV_bound e (hfin a ha e he)
    exact ⟨q, by rw [hpe, hq], hq2⟩
  obtain ⟨qs, hqs, hlen, hqb⟩ :=
    exists_num_list (1 / 1000000000) (pvPairs acts) (fun p => p.2) hv
  have hqpos : ∀ q ∈ qs, 0 < q :=
    fun q hq => lt_of_lt_of_le (by norm_num) (hqb q hq)
  have hpne : pvPairs acts ≠ [] := by
    intro h0
    apply hne
    have := congrArg List.length hkeys
    rw [h0] at this
    simp only [List.map_nil, List.length_nil, List.length_map] at this
    exact List.length_eq_zero.mp this.symm
  have hqsne : qs ≠ [] := by
    intro h0
    apply hpne
    rw [h0] at hlen
    simp only [List.length_nil] at hlen
    exact List.length_eq_zero.mp hlen.symm
  have hpos : 0 < qs.sum := List.sum_pos qs hqpos hqsne
  have hT : valSum ((pvPairs acts).map (fun p => p.2)) = .num qs.sum := by
    rw [hqs, valSum_map_num]
  have hdict : (pvPairs acts).foldl (fun d p => dictPut d p.1 p.2) [] = pvPairs acts := by
    have := foldl_dictPut_append (pvPairs acts) [] (by simp) (hkeys ▸ hnodup)
    simpa using this
  have hshares : getSharesFromProductionVolume acts
      = (pvPairs acts).map (fun p => (p.1, p.2.divv (Val.num qs.sum))) := by
    show ((pvPairs acts).foldl (fun d p => dictPut d p.1 p.2) []).map
        (fun p => (p.1, p.2.divv (valSum ((pvPairs acts).map (fun p => p.2))))) = _
    rw [hdict, hT]
  refine ⟨qs.sum, hpos, hT, ?_, ?_⟩
  · have hcomp : ((pvPairs acts).map
        (fun p => (p.1, p.2.divv (Val.num qs.sum)))).map (fun p => p.2)
        = ((pvPairs acts).map (fun p => p.2)).map
            (fun v => v.divv (Val.num qs.sum)) := by
      rw [List.map_map, List.map_map]
      rfl
    rw [hshares, hcomp, map_divv_num _ qs qs.sum (ne_of_gt hpos) hqs, valSum_map_num,
      list_sum_div_self, div_self (ne_of_gt hpos)]
  · rw [hshares, List.map_map]
    rw [show (Prod.fst ∘ fun p => (p.1, Val.divv p.2 (Val.num qs.sum)))
        = (Prod.fst : (String × String × String × String) × Val → _) from rfl]
    exact hkeys

/-- The production exchange of the duplicated activity of the C10
counterexample: no production-volume field, so the 1e-9 floor applies. -/
def c10exc : Exch :=
  { typ := "production", name := "n", product := "p", location := "L",
    unit := "u", amount := 1, pvol := none }

/-- The duplicated activity of the C10 counterexample. -/
def c10act : Act :=
  { name := "n", refProd := "p", location := "L", unit := "u", code := "c",
    exchanges := [c10exc] }

/-- Counterexample for C10: two activities sharing the same (name,
location, reference product, unit) identity, each with one production
exchange with no production-volume field: the dict key is overwritten
while the total still accumulates both floors, so the single returned
share is 1/2 and the share values sum to 1/2, not 1. -/
theorem c10_counterexample :
    getSharesFromProductionVolume [c10act, c10act]
      = [(("n", "L", "p", "u"), Val.num (1 / 2))] ∧
    valSum ((getSharesFromProductionVolume [c10act, c10act]).map (fun p => p.2))
      ≠ .num 1 := by
  have hf : flooredPV c10exc = Val.num (1 / 1000000000) := by
    unfold flooredPV c10exc
    simp [Val.ltv]
  have hp : pvPairs [c10act, c10act]
      = [(("n", "L", "p", "u"), Val.num (1 / 1000000000)),
         (("n", "L", "p", "u"), Val.num (1 / 1000000000))] := by
    have hp0 : pvPairs [c10act, c10act]
        = [(("n", "L", "p", "u"), flooredPV c10exc),
           (("n", "L", "p", "u"), flooredPV c10exc)] := rfl
    rw [hp0, hf]
  have hmain : getSharesFromProductionVolume [c10act, c10act]
      = [(("n", "L", "p", "u"), Val.num (1 / 2))] := by
    unfold getSharesFromProductionVolume
    rw [hp]
    simp only [List.foldl_cons, List.foldl_nil, List.map_cons, List.map_nil]
    rw [show dictPut ([] : List ((String × String × String × String) × Val))
        ("n", "L", "p", "u") (Val.num (1 / 1000000000))
        = [(("n", "L", "p", "u"), Val.num (1 / 1000000000))] from rfl]
    rw [show dictPut [(("n", "L", "p", "u"), Val.num (1 / 1000000000))]
        ("n", "L", "p", "u") (Val.num (1 / 1000000000))
        = [(("n", "L", "p", "u"), Val.num (1 / 1000000000))] from rfl]
    simp [valSum, Val.addv, Val.divv] <;> norm_num
  refine ⟨hmain, ?_⟩
  rw [hmain]
  simp [valSum, Val.addv] <;> norm_num

/-- The production exchange and the two activities of the C10 witness. -/
def c10exc1 : Exch :=
  { typ := "production", name := "n1", product := "p", location := "L", unit := "u", amount := 1, pvol := none }

/-- Second production exchange of the C10 witness. -/
def c10exc2 : Exch :=
  { typ := "production", name := "n2", product := "p", location := "L", unit := "u", amount := 1, pvol := none }

/-- First activity of the C10 witness. -/
def c10b1 : Act :=
  { name := "n1", refProd := "p", location := "L", unit := "u", code := "c1", exchanges := [c10exc1] }

/-- Second activity of the C10 witness. -/
def c10b2 : Act :=
  { name := "n2", refProd := "p", location := "L", unit := "u", code := "c2", exchanges := [c10exc2] }

theorem mem_dedupFirstAux {α : Type} [DecidableEq α] :
    ∀ (l seen : List α) (x : α), x ∈ l → x ∈ dedupFirstAux seen l ∨ x ∈ seen := by
  intro l
  induction l with
  | nil => intro seen x hx; cases hx
  | cons a t ih =>
    intro seen x hx
    simp only [dedupFirstAux]
    by_cases ha : a ∈ seen
    · rw [if_pos ha]
      rcases List.mem_cons.mp hx with h | h
      · subst h
        exact Or.inr ha
      · exact ih seen x h
    · rw [if_neg ha]
      rcases List.mem_cons.mp hx with h | h
      · subst h
        exact Or.inl (List.mem_cons_self _ _)
      · rcases ih (a :: seen) x h with h2 | h2
        · exact Or.inl (List.mem_cons_of_mem _ h2)
        · rcases List.mem_cons.mp h2 with h3 | h3
          · subst h3
            exact Or.inl (List.mem_cons_self _ _)
          · exact Or.inr h3

theorem mem_dedupFirst {α : Type} [DecidableEq α] (l : List α) (x : α)
    (hx : x ∈ l) : x ∈ dedupFirst l := by
  rcases mem_dedupFirstAux l [] x hx with h | h
  · exact h
  · cases h

theorem dedupFirst_singleton {α : Type} [DecidableEq α] (l : List α) (k : α)
    (h : dedupFirst l = [k]) : ∀ x ∈ l, x = k := by
  intro x hx
  have h2 := mem_dedupFirst l x hx
  rw [h] at h2
  simpa using h2

theorem cacheGet_cachePut
    (c : List ((String × (String × String × String × String)) × (String × String × String × String)))
    (key : String × (String × String × String × String))
    (v : String × String × String × String)
    (h : cacheGet c key = none) :
    cacheGet (cachePut c key v) key = some v := by
  unfold cacheGet at h
  unfold cacheGet cachePut
  rw [List.find?_append]
  have hf : List.find? (fun p => decide (p.1 = key)) c = none := by
    cases hf2 : List.find? (fun p => decide (p.1 = key)) c with
    | none => rfl
    | some p =>
        rw [hf2] at h
        simp at h
  rw [hf]
  simp [List.find?]

theorem relinkActivity_single (listDs : List (String × String × String))
    (regions : List String) (eco : String → String) (st : RelinkState) (act : Act)
    (k : String × String × String × String)
    (hdup : dedupFirst ((danglingOf listDs act).map excKey) = [k]) :
    relinkActivity listDs regions eco st act
      = ({ act with exchanges := (relinkStep listDs regions eco act.location
            (danglingOf listDs act) (act.exchanges, st) k).1 },
         (relinkStep listDs regions eco act.location
            (danglingOf listDs act) (act.exchanges, st) k).2) := by
  show ({ act with exchanges := ((dedupFirst ((danglingOf listDs act).map excKey)).foldl
      (relinkStep listDs regions eco act.location (danglingOf listDs act))
      (act.exchanges, st)).1 },
    ((dedupFirst ((danglingOf listDs act).map excKey)).foldl
      (relinkStep listDs regions eco act.location (danglingOf listDs act))
      (act.exchanges, st)).2) = _
  rw [hdup]
  rw [List.foldl_cons, List.foldl_nil]

theorem relinkStep_resolved (listDs : List (String × String × String))
    (regions : List String) (eco : String → String) (actLoc : String)
    (origDangling : List Exch) (excs : List Exch) (st : RelinkState)
    (k tgt : String × String × String × String)
    (hres : resolveTuple listDs regions eco actLoc st k = some tgt) :
    (relinkStep listDs regions eco actLoc origDangling (excs, st) k).1
      = excs.filter (fun e => decide (excKey e ≠ k))
        ++ [{ typ := "technosphere", name := tgt.1, product := tgt.2.1,
              location := tgt.2.2.1, unit := tgt.2.2.2,
              amount := ((origDangling.filter (fun e => decide (excKey e = k))).map
                (fun e => e.amount)).sum }] ∧
    cacheGet (relinkStep listDs regions eco actLoc origDangling (excs, st) k).2.cache
      (actLoc, k) = some tgt := by
  by_cases hhit : (cacheGet st.cache (actLoc, k)).isSome
  · obtain ⟨t0, ht0⟩ := Option.isSome_iff_exists.mp hhit
    have htgt : t0 = tgt := by
      unfold resolveTuple at hres
      rw [ht0] at hres
      exact Option.some.injEq _ _ ▸ hres
    subst htgt
    simp only [relinkStep, hres, hhit, if_pos]
    constructor
    · trivial
    · exact ht0
  · have hmiss : cacheGet st.cache (actLoc, k) = none :=
      Option.not_isSome_iff_eq_none.mp hhit
    simp only [relinkStep, hres, hhit, if_neg, Bool.false_eq_true, not_false_iff, if_false]
    constructor
    · trivial
    · exact cacheGet_cachePut st.cache (actLoc, k) tgt hmiss

theorem relinkStep_unresolved (listDs : List (String × String × String))
    (regions : List String) (eco : String → String) (actLoc : String)
    (origDangling : List Exch) (excs : List Exch) (st : RelinkState)
    (k : String × String × String × String)
    (hres : resolveTuple listDs regions eco actLoc st k = none)
    (hlast : st.lastTarget = none) :
    (relinkStep listDs regions eco actLoc origDangling (excs, st) k).1
      = excs.filter (fun e => decide (excKey e ≠ k)) ∧
    (relinkStep listDs regions eco actLoc origDangling (excs, st) k).2.diagnostics
      = st.diagnostics ++ [(k.1, actLoc)] ∧
    (relinkStep listDs regions eco actLoc origDangling (excs, st) k).2.cache
      = st.cache := by
  have hmiss : cacheGet st.cache (actLoc, k) = none := by
    unfold resolveTuple at hres
    cases hcg : cacheGet st.cache (actLoc, k) with
    | none => rfl
    | some t => rw [hcg] at hres; cases hres
  simp only [relinkStep, hres, hlast]
  refine ⟨?_, ?_, ?_⟩ <;> trivial

/-- Claim C5 (amended): if an activity has exactly one distinct dangling
technosphere tuple and its resolution (cache hit or candidate search)
yields a target, then afterwards the activity carries exactly one
technosphere exchange pointing at the resolved (name, product, location)
identity - provided no other exchange of the activity already points at
it - with amount equal to the sum of the amounts of all originally
dangling exchanges sharing the tuple, and the resolution is cached under
(origin location, dangling tuple). -/
theorem c5_relink_consolidates (listDs : List (String × String × String))
    (regions : List String) (eco : String → String) (st : RelinkState) (act : Act)
    (k tgt : String × String × String × String)
    (hdup : dedupFirst ((danglingOf listDs act).map excKey) = [k])
    (hres : resolveTuple listDs regions eco act.location st k = some tgt)
    (hnocol : ∀ e ∈ act.exchanges, excKey e ≠ k →
      ¬(e.typ = "technosphere" ∧ excIdent e = (tgt.1, tgt.2.1, tgt.2.2.1))) :
    ((relinkActivity listDs regions eco st act).1.exchanges.filter
        (fun e => decide (e.typ = "technosphere"
          ∧ excIdent e = (tgt.1, tgt.2.1, tgt.2.2.1)))).length = 1 ∧
    (∀ e ∈ (relinkActivity listDs regions eco st act).1.exchanges,
      e.typ = "technosphere" → excIdent e = (tgt.1, tgt.2.1, tgt.2.2.1) →
      e.amount = (((danglingOf listDs act).filter
        (fun e2 => decide (excKey e2 = k))).map (fun e2 => e2.amount)).sum) ∧
    cacheGet (relinkActivity listDs regions eco st act).2.cache
      (act.location, k) = some tgt := by
  have hsingle := relinkActivity_single listDs regions eco st act k hdup
  obtain ⟨hexc, hcache⟩ := relinkStep_resolved listDs regions eco act.location
    (danglingOf listDs act) act.exchanges st k tgt hres
  have hexcs : (relinkActivity listDs regions eco st act).1.exchanges
      = act.exchanges.filter (fun e => decide (excKey e ≠ k))
        ++ [{ typ := "technosphere", name := tgt.1, product := tgt.2.1,
              location := tgt.2.2.1, unit := tgt.2.2.2,
              amount := (((danglingOf listDs act).filter
                (fun e2 => decide (excKey e2 = k))).map (fun e2 => e2.amount)).sum }] := by
    rw [hsingle]
    exact hexc
  refine ⟨?_, ?_, ?_⟩
  · rw [hexcs, List.filter_append]
    have h1 : (act.exchanges.filter (fun e => decide (excKey e ≠ k))).filter
        (fun e => decide (e.typ = "technosphere"
          ∧ excIdent e = (tgt.1, tgt.2.1, tgt.2.2.1))) = [] := by
      rw [List.filter_eq_nil_iff]
      intro e he
      have hm := List.mem_filter.mp he
      have hne : excKey e ≠ k := of_decide_eq_true hm.2
      simp only [decide_eq_true_eq]
      exact hnocol e hm.1 hne
    rw [h1]
    simp [excIdent]
  · intro e he htyp hid
    rw [hexcs] at he
    rcases List.mem_append.mp he with h | h
    · have hm := List.mem_filter.mp h
      have hne : excKey e ≠ k := of_decide_eq_true hm.2
      exact absurd ⟨htyp, hid⟩ (hnocol e hm.1 hne)
    · have he2 := List.mem_singleton.mp h
      rw [he2]
  · rw [hsingle]
    exact hcache

/-- Claim C6 (amended): if the single distinct dangling tuple of an
activity does not resolve and no earlier tuple in the same
relink_datasets call has bound a replacement target, the dangling
exchanges of the tuple are removed from the activity (not kept), a
diagnostic naming the unmet exchange and the origin location is
recorded, the cache is unchanged, and the call returns normally (the
embedding is a total function: the NameError is caught by the bare
except). -/
theorem c6_unresolved_removes_exchanges (listDs : List (String × String × String))
    (regions : List String) (eco : String → String) (st : RelinkState) (act : Act)
    (k : String × String × String × String)
    (hdup : dedupFirst ((danglingOf listDs act).map excKey) = [k])
    (hres : resolveTuple listDs regions eco act.location st k = none)
    (hlast : st.lastTarget = none) :
    (relinkActivity listDs regions eco st act).1.exchanges
      = act.exchanges.filter (fun e => decide (excKey e ≠ k)) ∧
    (relinkActivity listDs regions eco st act).2.diagnostics
      = st.diagnostics ++ [(k.1, act.location)] ∧
    (relinkActivity listDs regions eco st act).2.cache = st.cache := by
  have hsingle := relinkActivity_single listDs regions eco st act k hdup
  obtain ⟨h1, h2, h3⟩ := relinkStep_unresolved listDs regions eco act.location
    (danglingOf listDs act) act.exchanges st k hres hlast
  rw [hsingle]
  exact ⟨h1, h2, h3⟩

/-- The pre-existing valid exchange of the C5 counterexample, pointing at
the known identity (T, p, R). -/
def c5exc1 : Exch :=
  { typ := "technosphere", name := "T", product := "p", location := "R", unit := "u", amount := 2, pvol := none }

/-- The dangling exchange of the C5 counterexample (stale location OLD). -/
def c5exc2 : Exch :=
  { typ := "technosphere", name := "T", product := "p", location := "OLD", unit := "u", amount := 3, pvol := none }

/-- The activity of the C5 counterexample. -/
def c5act : Act :=
  { name := "A", refProd := "ap", location := "R", unit := "u", code := "ac", exchanges := [c5exc1, c5exc2] }

/-- Counterexample for C5: the activity already holds a valid exchange to
the identity (T, p, R); its dangling tuple (T, p, OLD, u) resolves to
that same identity, so after the relink the activity carries two
technosphere exchanges pointing at the resolved identity, not exactly
one. -/
theorem c5_counterexample :
    ((relinkActivity [("T", "p", "R")] ["R"] (fun _ => "R")
        ⟨[], [], none, []⟩ c5act).1.exchanges.filter
      (fun e => decide (e.typ = "technosphere"
        ∧ excIdent e = ("T", "p", "R")))).length = 2 := by
  decide

/-- The single dangling exchange of the C5 witness activity. -/
def c5wact : Act :=
  { name := "A", refProd := "ap", location := "R", unit := "u", code := "ac", exchanges := [c5exc2] }

/-- Witness for the amended C5: an activity holding only the dangling
exchange (T, p, OLD, u); the tuple resolves to (T, p, R, u), afterwards
exactly one exchange points at (T, p, R) and the resolution is cached. -/
theorem c5_witness :
    ((relinkActivity [("T", "p", "R")] ["R"] (fun _ => "R")
        ⟨[], [], none, []⟩ c5wact).1.exchanges.filter
      (fun e => decide (e.typ = "technosphere"
        ∧ excIdent e = ("T", "p", "R")))).length = 1 ∧
    cacheGet (relinkActivity [("T", "p", "R")] ["R"] (fun _ => "R")
        ⟨[], [], none, []⟩ c5wact).2.cache ("R", ("T", "p", "OLD", "u"))
      = some ("T", "p", "R", "u") := by
  have h := c5_relink_consolidates [("T", "p", "R")] ["R"] (fun _ => "R")
    ⟨[], [], none, []⟩ c5wact ("T", "p", "OLD", "u") ("T", "p", "R", "u")
    (by decide) (by decide) (by decide)
  exact ⟨h.1, h.2.2⟩

/-- The dangling exchange of the C6 counterexample and witness. -/
def c6exc : Exch :=
  { typ := "technosphere", name := "T", product := "p", location := "OLD", unit := "u", amount := 3, pvol := none }

/-- The activity of the C6 counterexample. -/
def c6act : Act :=
  { name := "B", refProd := "bp", location := "R", unit := "u", code := "bc", exchanges := [c6exc] }

/-- Counterexample for C6: with no known identities at all, the dangling
exchange does not resolve; afterwards the activity does NOT keep the
exchange - its exchange list is empty - while the diagnostic (exchange
name, origin location) is recorded. -/
theorem c6_counterexample :
    (relinkActivity ([] : List (String × String × String)) ["R"] (fun _ => "R")
      ⟨[], [], none, []⟩ c6act).1.exchanges = [] ∧
    ("T", "R") ∈ (relinkActivity ([] : List (String × String × String)) ["R"]
      (fun _ => "R") ⟨[], [], none, []⟩ c6act).2.diagnostics := by
  decide

/-- Witness for the amended C6: the unresolved tuple is removed, the
diagnostic is appended and the cache is unchanged. -/
theorem c6_witness :
    (relinkActivity ([] : List (String × String × String)) ["R"] (fun _ => "R")
      ⟨[], [], none, []⟩ c6act).1.exchanges
      = c6act.exchanges.filter (fun e => decide (excKey e ≠ ("T", "p", "OLD", "u"))) ∧
    (relinkActivity ([] : List (String × String × String)) ["R"] (fun _ => "R")
      ⟨[], [], none, []⟩ c6act).2.diagnostics = [("T", "R")] ∧
    (relinkActivity ([] : List (String × String × String)) ["R"] (fun _ => "R")
      ⟨[], [], none, []⟩ c6act).2.cache = [] := by
  have h := c6_unresolved_removes_exchanges ([] : List (String × String × String))
    ["R"] (fun _ => "R") ⟨[], [], none, []⟩ c6act ("T", "p", "OLD", "u")
    (by decide) (by decide) (by decide)
  exact ⟨h.1, h.2.1, h.2.2⟩

/-- Witness for the amended C10: two activities with distinct identity
keys, one production exchange each and absent production-volume fields;
the returned shares sum to exactly 1 over the two identity keys. -/
theorem c10_witness :
    valSum ((getSharesFromProductionVolume [c10b1, c10b2]).map (fun p => p.2))
      = .num 1 := by
  obtain ⟨T, _, _, hsum, _⟩ := c10_production_volume_shares [c10b1, c10b2]
    (by decide) (by decide) (by decide)
    (by
      intro a ha e he
      fin_cases ha <;> simp_all [c10b1, c10b2, c10exc1, c10exc2])
  exact hsum


theorem getOneAct_ok (db : List Act) (nm rp loc : String) (a : Act)
    (h : getOneAct db nm rp loc = .ok a) :
    a ∈ db ∧ a.name = nm ∧ strContains a.refProd rp = true := by
  unfold getOneAct at h
  cases hf : db.filter (fun a2 =>
      decide (a2.name = nm ∧ strContains a2.refProd rp = true ∧ a2.location = loc)) with
  | nil => rw [hf] at h; cases h
  | cons b t =>
    cases t with
    | nil =>
      rw [hf] at h
      have hab : a = b := by
        cases h
        rfl
      subst hab
      have hm : a ∈ db.filter (fun a2 =>
          decide (a2.name = nm ∧ strContains a2.refProd rp = true ∧ a2.location = loc)) := by
        rw [hf]
        exact List.mem_singleton.mpr rfl
      have hp := List.mem_filter.mp hm
      have hprop := of_decide_eq_true hp.2
      exact ⟨hp.1, hprop.1, hprop.2.1⟩
    | cons c t2 => rw [hf] at h; cases h

theorem fetchTemplate_ok (db : List Act) (eco : String → String) (nm rp region : String)
    (a : Act) (h : fetchTemplate db eco nm rp region = .ok a) :
    a ∈ db ∧ a.name = nm ∧ strContains a.refProd rp = true := by
  unfold fetchTemplate at h
  cases h1 : getOneAct db nm rp (dIamToEco db eco nm rp region) with
  | ok b =>
    rw [h1] at h
    have hab : a = b := by
      cases h
      rfl
    subst hab
    exact getOneAct_ok db nm rp _ a h1
  | error e =>
    rw [h1] at h
    cases e with
    | noResults => exact getOneAct_ok db nm rp ("GLO") a h
    | keyError => cases h
    | systemExit => cases h
    | multipleResults => cases h
    | nameError => cases h

theorem fetchLoop_ok (db : List Act) (eco : String → String) (nm rp : String)
    (newCode : String → String) (pvCube : String → String → ℤ → Val)
    (prodVars : List String) (years : List ℤ) (year : ℤ) :
    ∀ (rs : List String) (lst : List (String × Act)),
    fetchLoop db eco nm rp newCode pvCube prodVars years year rs = .ok lst →
    lst.map Prod.fst = rs ∧
    ∀ p ∈ lst, ∃ tmpl, tmpl ∈ db ∧ tmpl.name = nm ∧ strContains tmpl.refProd rp = true ∧
      p.2 = cloneToRegion tmpl p.1 (newCode p.1)
        (prodVolAt pvCube prodVars years year p.1) := by
  intro rs
  induction rs with
  | nil =>
    intro lst h
    have hl : lst = [] := by
      simp only [fetchLoop] at h
      cases h
      rfl
    subst hl
    exact ⟨rfl, by simp⟩
  | cons r rs2 ih =>
    intro lst h
    simp only [fetchLoop] at h
    cases hT : fetchTemplate db eco nm rp r with
    | error e => rw [hT] at h; cases h
    | ok tmpl =>
      rw [hT] at h
      cases hL : fetchLoop db eco nm rp newCode pvCube prodVars years year rs2 with
      | error e => rw [hL] at h; cases h
      | ok rest =>
        rw [hL] at h
        have hl : lst = (r, cloneToRegion tmpl r (newCode r)
            (prodVolAt pvCube prodVars years year r)) :: rest := by
          cases h
          rfl
        subst hl
        obtain ⟨ih1, ih2⟩ := ih rest hL
        obtain ⟨hmem, hnm, hrp⟩ := fetchTemplate_ok db eco nm rp r tmpl hT
        constructor
        · simp [ih1]
        · intro p hp
          rcases List.mem_cons.mp hp with hp1 | hp1
          · subst hp1
            exact ⟨tmpl, hmem, hnm, hrp, rfl⟩
          · exact ih2 p hp1

/-- Claim C7: when fetch_proxies succeeds on pairwise distinct scenario
regions, with every template candidate sharing the reference product P
and an injective code generator, it returns exactly one clone per
region, each located at its region, carrying the fresh code and its
production exchanges stamped with the region and the interpolated
production volume summed over the production variables; the clones have
pairwise distinct locations and codes, and the returned database
contains no activity with the template (name, reference product) pair. -/
theorem c7_fetch_proxies_replicates (db : List Act) (regions : List String)
    (eco : String → String) (nm rp P : String) (newCode : String → String)
    (pvCube : String → String → ℤ → Val) (prodVars : List String) (years : List ℤ)
    (year : ℤ) (lst : List (String × Act)) (db2 : List Act)
    (hok : fetchProxies db regions eco nm rp newCode pvCube prodVars years year
      = .ok (lst, db2))
    (huni : ∀ a ∈ db, a.name = nm → strContains a.refProd rp = true → a.refProd = P)
    (hnodup : regions.Nodup)
    (hinj : ∀ r1 ∈ regions, ∀ r2 ∈ regions, newCode r1 = newCode r2 → r1 = r2) :
    lst.map Prod.fst = regions ∧
    (∀ p ∈ lst, p.2.location = p.1 ∧ p.2.code = newCode p.1 ∧
      ∀ e ∈ p.2.exchanges, e.typ = "production" →
        e.location = p.1 ∧ e.pvol = some (prodVolAt pvCube prodVars years year p.1)) ∧
    (lst.map (fun p => p.2.location)).Nodup ∧
    (lst.map (fun p => p.2.code)).Nodup ∧
    (∀ a ∈ db2, ¬(a.name = nm ∧ a.refProd = P)) ∧
    lst.length = regions.length := by
  unfold fetchProxies at hok
  cases hfl : fetchLoop db eco nm rp newCode pvCube prodVars years year regions with
  | error e => rw [hfl] at hok; cases hok
  | ok lst0 =>
    rw [hfl] at hok
    have hok2 : (match lst0.getLast? with
        | none => (Except.error DErr.nameError :
            Except DErr (List (String × Act) × List Act))
        | some lastPair => Except.ok (lst0, db.filter (fun a =>
            decide (¬(a.name = lastPair.2.name ∧ a.refProd = lastPair.2.refProd)))))
        = Except.ok (lst, db2) := hok
    cases hlast : lst0.getLast? with
    | none => rw [hlast] at hok2; cases hok2
    | some lp =>
      rw [hlast] at hok2
      have h3 := Except.ok.inj hok2
      have hpair := Prod.mk.injEq _ _ _ _ ▸ h3
      obtain ⟨hl0, hdb2⟩ := hpair
      have hl0s := hl0.symm
      subst hl0s
      have hdb2 := hdb2.symm
      obtain ⟨hmap, hcl⟩ := fetchLoop_ok db eco nm rp newCode pvCube prodVars years year
        regions lst hfl
      have hper : ∀ p ∈ lst, p.2.location = p.1 ∧ p.2.code = newCode p.1 ∧
          ∀ e ∈ p.2.exchanges, e.typ = "production" →
            e.location = p.1 ∧ e.pvol = some (prodVolAt pvCube prodVars years year p.1) := by
        intro p hp
        obtain ⟨tmpl, _, _, _, hclone⟩ := hcl p hp
        rw [hclone]
        refine ⟨rfl, rfl, ?_⟩
        intro e he htyp
        simp only [cloneToRegion, List.mem_map] at he
        obtain ⟨e0, _, he0⟩ := he
        by_cases h0 : e0.typ = "production"
        · rw [if_pos h0] at he0
          rw [← he0]
          exact ⟨rfl, rfl⟩
        · rw [if_neg h0] at he0
          rw [← he0] at htyp
          exact absurd htyp h0
      have hlocs : lst.map (fun p => p.2.location) = regions := by
        rw [← hmap]
        apply List.map_congr_left
        intro p hp
        exact (hper p hp).1
      have hcodes : lst.map (fun p => p.2.code) = regions.map newCode := by
        rw [← hmap, List.map_map]
        apply List.map_congr_left
        intro p hp
        exact (hper p hp).2.1
      have hlp : lp ∈ lst := List.mem_of_mem_getLast? hlast
      obtain ⟨tmpl, htm, htnm, htrp, htcl⟩ := hcl lp hlp
      have hlpname : lp.2.name = nm := by
        rw [htcl]
        simpa [cloneToRegion] using htnm
      have hlprp : lp.2.refProd = P := by
        rw [htcl]
        simpa [cloneToRegion] using huni tmpl htm htnm htrp
      refine ⟨hmap, hper, ?_, ?_, ?_, ?_⟩
      · rw [hlocs]
        exact hnodup
      · rw [hcodes]
        exact hnodup.map_on hinj
      · intro a ha
        rw [hdb2] at ha
        have hm := List.mem_filter.mp ha
        have hprop := of_decide_eq_true hm.2
        rw [hlpname, hlprp] at hprop
        exact hprop
      · rw [← hmap, List.length_map]

/-- The production exchange of the C7 witness template. -/
def c7exc : Exch :=
  { typ := "production", name := "m", product := "pr", location := "GLO", unit := "u", amount := 1, pvol := none }

/-- The C7 witness template dataset, located at GLO. -/
def c7tmpl : Act :=
  { name := "m", refProd := "pr", location := "GLO", unit := "u", code := "c0", exchanges := [c7exc] }

/-- Witness for C7: replicating the GLO template into the two regions R1
and R2 (found through the GLO fallback) returns one clone per region
with distinct locations, and deletes the template from the database. -/
theorem c7_witness :
    [("R1", cloneToRegion c7tmpl ("R1") ("R1")
        (prodVolAt (fun _ _ _ => Val.num 5) ["v"] [2020, 2030] 2025 ("R1"))),
      ("R2", cloneToRegion c7tmpl ("R2") ("R2")
        (prodVolAt (fun _ _ _ => Val.num 5) ["v"] [2020, 2030] 2025 ("R2")))].map
      Prod.fst = ["R1", "R2"] ∧
    ([("R1", cloneToRegion c7tmpl ("R1") ("R1")
        (prodVolAt (fun _ _ _ => Val.num 5) ["v"] [2020, 2030] 2025 ("R1"))),
      ("R2", cloneToRegion c7tmpl ("R2") ("R2")
        (prodVolAt (fun _ _ _ => Val.num 5) ["v"] [2020, 2030] 2025 ("R2")))].map
      (fun p => p.2.location)).Nodup ∧
    (∀ a ∈ ([] : List Act), ¬(a.name = "m" ∧ a.refProd = "pr")) := by
  have h := c7_fetch_proxies_replicates [c7tmpl] ["R1", "R2"] (fun _ => "X")
    ("m") ("pr") ("pr") (fun r => r) (fun _ _ _ => Val.num 5) ["v"] [2020, 2030] 2025
    [("R1", cloneToRegion c7tmpl ("R1") ("R1")
        (prodVolAt (fun _ _ _ => Val.num 5) ["v"] [2020, 2030] 2025 ("R1"))),
     ("R2", cloneToRegion c7tmpl ("R2") ("R2")
        (prodVolAt (fun _ _ _ => Val.num 5) ["v"] [2020, 2030] 2025 ("R2")))]
    [] (by rfl) (by decide) (by decide) (by decide)
  exact ⟨h.1, h.2.2.1, h.2.2.2.2.1⟩


end Premise
